import Mathlib

/-!
# awql-driver: statement binding, report download and result cursor

A shallow embedding of `statement.go` (package `awql`): the prepared statement
`Stmt`, its methods `NumInput`, `Bind`, `filePath`, `download` and `Query`,
together with the parts of the Go standard library they call
(`strings.Count`, `strings.Replace`, `fmt.Sprintf` with the verbs `%d`, `%t`,
`%q`, `strconv.Quote`, `utf8.DecodeRuneInString`, `hash/fnv`).

Go strings are byte sequences, so a string is a list of bytes here.
Calls that leave the process (HTTP client, file system, token refresh) are
answered by a `World` of oracles and recorded in a trace of events.
-/

set_option autoImplicit false

namespace Awql

/-! ## Bytes and strings -/

/-- A byte, the element type of a Go string. -/
abbrev Byte := Fin 256

/-- A Go string: an immutable sequence of bytes (not necessarily valid UTF-8). -/
abbrev GoString := List Byte

/-- Conversion `byte(n)`: keeps the low eight bits. -/
def mkByte (n : Nat) : Byte := ⟨n % 256, Nat.mod_lt _ (by decide)⟩

/-- The rune substituted for invalid UTF-8, `utf8.RuneError` (U+FFFD). -/
def RuneError : Nat := 0xFFFD

/-- The largest valid code point, `utf8.MaxRune`. -/
def MaxRune : Nat := 0x10FFFF

/-- Function `utf8.AppendRune` on an empty buffer (`utf8.EncodeRune`): the
UTF-8 encoding of the rune `r`. -/
def appendRune (r : Nat) : GoString :=
  if r ≤ 0x7F then [mkByte r]
  else if r ≤ 0x7FF then
    [0xC0 ||| mkByte (r >>> 6), 0x80 ||| (mkByte r &&& 0x3F)]
  else if MaxRune < r ∨ (0xD800 ≤ r ∧ r ≤ 0xDFFF) then
    [0xE0 ||| mkByte (RuneError >>> 12), 0x80 ||| (mkByte (RuneError >>> 6) &&& 0x3F),
      0x80 ||| (mkByte RuneError &&& 0x3F)]
  else if r ≤ 0xFFFF then
    [0xE0 ||| mkByte (r >>> 12), 0x80 ||| (mkByte (r >>> 6) &&& 0x3F),
      0x80 ||| (mkByte r &&& 0x3F)]
  else
    [0xF0 ||| mkByte (r >>> 18), 0x80 ||| (mkByte (r >>> 12) &&& 0x3F),
      0x80 ||| (mkByte (r >>> 6) &&& 0x3F), 0x80 ||| (mkByte r &&& 0x3F)]

/-- The bytes of a Go string literal written in the source (UTF-8 encoded). -/
def lit (s : String) : GoString := s.toList.flatMap (fun c => appendRune c.toNat)

/-- The double quote, the byte `0x22`. -/
def dquote : Byte := 0x22

/-- The backslash, the byte `0x5C`. -/
def backslash : Byte := 0x5C

/-- The placeholder character of a statement template, the byte of "?". -/
def placeholder : Byte := 0x3F

/-- Function `strings.Count(s, "?")` for the one-byte separator used by the
driver: the number of bytes of `s` equal to `sep`. -/
def stringsCount (s : GoString) (sep : Byte) : Nat := s.count sep

/-- Function `strings.Replace(s, old, new, 1)` for a one-byte `old`: the first
occurrence of `old` is replaced by `new`; without an occurrence `s` is returned
unchanged. -/
def stringsReplaceFirst : GoString → Byte → GoString → GoString
  | [], _, _ => []
  | c :: rest, old, new =>
    if c = old then new ++ rest else c :: stringsReplaceFirst rest old new

/-- Function `strings.ToUpper` on a string made of ASCII bytes (the only
inputs it receives here are the constants "true" and "false"). -/
def stringsToUpper (s : GoString) : GoString :=
  s.map (fun c => if 0x61 ≤ c.val ∧ c.val ≤ 0x7A then mkByte (c.val - 0x20) else c)

/-- Function `strings.ToLower` on a string made of ASCII bytes (the only input
it receives here is the constant `apiFmt`). -/
def stringsToLower (s : GoString) : GoString :=
  s.map (fun c => if 0x41 ≤ c.val ∧ c.val ≤ 0x5A then mkByte (c.val + 0x20) else c)

/-! ## Number formatting -/

/-- Digit loop of `strconv.FormatUint(n, 10)`: emits the decimal digits of `n`
from the least significant one, in front of `acc`. The fuel bounds the number
of digits. -/
def formatBits : Nat → Nat → GoString → GoString
  | 0, _, acc => acc
  | fuel + 1, n, acc =>
    if n < 10 then mkByte (0x30 + n) :: acc
    else formatBits fuel (n / 10) (mkByte (0x30 + n % 10) :: acc)

/-- Function `strconv.FormatUint(n, 10)`: the base-10 rendering of `n`. -/
def formatUint (n : Nat) : GoString := formatBits (n + 1) n []

/-- Result of `fmt.Sprintf("%d", v)` for an `int64` value `v`. -/
def sprintfD (v : Int) : GoString :=
  if v < 0 then 0x2D :: formatUint v.natAbs else formatUint v.natAbs

/-- Function `strconv.FormatBool`, also the result of `fmt.Sprintf("%t", b)`. -/
def formatBool (b : Bool) : GoString := if b then lit "true" else lit "false"

/-! ## UTF-8 decoding and `strconv.Quote` -/

/-- Table `first` of package `utf8`: information about the first byte of a
UTF-8 sequence (`0xF0` ASCII, `0xF1` invalid, otherwise the size in the low
three bits and the index of the accept range in the high four). -/
def utf8First (b : Byte) : Nat :=
  if b.val < 0x80 then 0xF0
  else if b.val < 0xC2 then 0xF1
  else if b.val < 0xE0 then 0x02
  else if b.val = 0xE0 then 0x13
  else if b.val < 0xED then 0x03
  else if b.val = 0xED then 0x23
  else if b.val < 0xF0 then 0x03
  else if b.val = 0xF0 then 0x34
  else if b.val < 0xF4 then 0x04
  else if b.val = 0xF4 then 0x44
  else 0xF1

/-- Table `acceptRanges` of package `utf8`: the bounds of the second byte. -/
def acceptRange (i : Nat) : Nat × Nat :=
  match i with
  | 0 => (0x80, 0xBF)
  | 1 => (0xA0, 0xBF)
  | 2 => (0x80, 0x9F)
  | 3 => (0x90, 0xBF)
  | 4 => (0x80, 0x8F)
  | _ => (0, 0)

/-- Function `utf8.DecodeRuneInString`: the first rune of `s` and its width in
bytes; an invalid or short encoding gives `(RuneError, 1)`, the empty string
`(RuneError, 0)`. -/
def decodeRune (s : GoString) : Nat × Nat :=
  match s with
  | [] => (RuneError, 0)
  | s0 :: rest =>
    let x := utf8First s0
    if 0xF0 ≤ x then
      (if x % 2 = 1 then RuneError else s0.val, 1)
    else
      let sz := x &&& 7
      let accept := acceptRange (x >>> 4)
      if rest.length + 1 < sz then (RuneError, 1)
      else
        match rest with
        | [] => (RuneError, 1)
        | s1 :: rest1 =>
          if s1.val < accept.1 ∨ accept.2 < s1.val then (RuneError, 1)
          else if sz ≤ 2 then
            (((s0.val &&& 0x1F) <<< 6) ||| (s1.val &&& 0x3F), 2)
          else
            match rest1 with
            | [] => (RuneError, 1)
            | s2 :: rest2 =>
              if s2.val < 0x80 ∨ 0xBF < s2.val then (RuneError, 1)
              else if sz ≤ 3 then
                (((s0.val &&& 0x0F) <<< 12) ||| ((s1.val &&& 0x3F) <<< 6)
                  ||| (s2.val &&& 0x3F), 3)
              else
                match rest2 with
                | [] => (RuneError, 1)
                | s3 :: _ =>
                  if s3.val < 0x80 ∨ 0xBF < s3.val then (RuneError, 1)
                  else
                    (((s0.val &&& 0x07) <<< 18) ||| ((s1.val &&& 0x3F) <<< 12)
                      ||| ((s2.val &&& 0x3F) <<< 6) ||| (s3.val &&& 0x3F), 4)

/-- The digits `lowerhex` of package `strconv`, indexed by a nibble. -/
def lowerhex (i : Nat) : Byte := (lit "0123456789abcdef").getD i 0

/-- What the standard library contributes through tables and through
formatting code that is outside the scope of the embedding. -/
structure Lib where
  /-- Tables of `strconv.IsPrint` for the runes above U+00FF. -/
  isPrintTable : Nat → Bool
  /-- Result of `fmt.Sprintf("%f", x)` for the float64 with the given bits. -/
  sprintfF : Nat → GoString
  /-- Result of `String()` for the `time.Time` with the given identity. -/
  timeString : Nat → GoString

/-- Function `strconv.IsPrint`: the Latin-1 range is decided inline, the rest
by the tables. -/
def isPrint (L : Lib) (r : Nat) : Bool :=
  if r ≤ 0xFF then
    if 0x20 ≤ r ∧ r ≤ 0x7E then true
    else if 0xA1 ≤ r ∧ r ≤ 0xFF then r != 0xAD
    else false
  else L.isPrintTable r

/-- Function `utf8.ValidRune`. -/
def validRune (r : Nat) : Bool :=
  if r < 0xD800 then true
  else if 0xDFFF < r ∧ r ≤ MaxRune then true
  else false

/-- Hexadecimal digits of `r` from bit `4 * n - 4` down to bit 0, as written
by the loops `for s := 12; s >= 0; s -= 4` and `for s := 28; ...`. -/
def hexDigits : Nat → Nat → GoString
  | 0, _ => []
  | n + 1, r => lowerhex ((r >>> (4 * n)) &&& 0xF) :: hexDigits n r

/-- Function `appendEscapedRune(buf, r, quote, false, false)` of package
`strconv` with the double quote as `quote`: the bytes written for rune `r`. -/
def appendEscapedRune (L : Lib) (r : Nat) : GoString :=
  if r = 0x22 ∨ r = 0x5C then [backslash, mkByte r]
  else if isPrint L r then appendRune r
  else if r = 0x07 then backslash :: lit "a"
  else if r = 0x08 then backslash :: lit "b"
  else if r = 0x0C then backslash :: lit "f"
  else if r = 0x0A then backslash :: lit "n"
  else if r = 0x0D then backslash :: lit "r"
  else if r = 0x09 then backslash :: lit "t"
  else if r = 0x0B then backslash :: lit "v"
  else if r < 0x20 ∨ r = 0x7F then
    backslash :: lit "x" ++ [lowerhex ((mkByte r).val >>> 4), lowerhex ((mkByte r).val &&& 0xF)]
  else if !validRune r then backslash :: lit "u" ++ hexDigits 4 0xFFFD
  else if r < 0x10000 then backslash :: lit "u" ++ hexDigits 4 r
  else backslash :: lit "U" ++ hexDigits 8 r

/-- Loop of `strconv.appendQuotedWith`: `skip` counts the bytes of the current
rune that are still to be stepped over (the loop advances by the width of the
rune it decoded). -/
def quoteLoop (L : Lib) : Nat → GoString → GoString
  | _, [] => []
  | skip + 1, _ :: rest => quoteLoop L skip rest
  | 0, s0 :: rest =>
    let d := if s0.val ≥ 0x80 then decodeRune (s0 :: rest) else (s0.val, 1)
    if d.2 = 1 ∧ d.1 = RuneError then
      backslash :: lit "x" ++ [lowerhex (s0.val >>> 4), lowerhex (s0.val &&& 0xF)]
        ++ quoteLoop L 0 rest
    else
      appendEscapedRune L d.1 ++ quoteLoop L (d.2 - 1) rest

/-- Function `strconv.Quote`, the result of `fmt.Sprintf("%q", s)` for a
string `s`: a double-quoted Go string literal. -/
def strconvQuote (L : Lib) (s : GoString) : GoString :=
  [dquote] ++ quoteLoop L 0 s ++ [dquote]

/-! ## Values, errors and the connection -/

/-- A `driver.Value`: nil or one of the six types the `database/sql/driver`
package allows. A float64 is given by its IEEE-754 bits, a `time.Time` by an
identity that `Lib.timeString` renders. -/
inductive Value where
  | null
  | int64 (v : Int)
  | float64 (bits : Nat)
  | bool (b : Bool)
  | bytes (b : GoString)
  | string (s : GoString)
  | time (t : Nat)
deriving DecidableEq

/-- Modelled from the spec: the error values the statement can return (the
error variables and `NewApiError` are declared outside `statement.go`): the
four error variables of the package, the typed API error built by
`NewApiError(out)` from the response body, and the errors produced by library
calls. -/
inductive Error where
  | ErrQueryBinding
  | ErrBadToken
  | ErrNoNetwork
  | ErrBadNetwork
  | NewApiError (out : GoString)
  | library (text : GoString)
deriving DecidableEq

/-- Modelled from the spec: the options of a connection (type `Opts`, declared
outside `statement.go`): the API version and the boolean behaviour flags. -/
structure Opts where
  Version : GoString
  IncludeZeroImpressions : Bool
  SkipColumnHeader : Bool
  SkipReportHeader : Bool
  SkipReportSummary : Bool
  UseRawEnumValues : Bool
deriving DecidableEq

/-- Modelled from the spec: the auth material of a connection (type `Auth`,
declared outside `statement.go`): the refresh key set and the token snapshot. -/
structure Auth where
  ClientId : GoString
  ClientSecret : GoString
  RefreshToken : GoString
  AccessToken : GoString
  TokenType : GoString
  Expiry : Int
deriving DecidableEq

/-- Modelled from the spec: method `String` of the auth material, the value of
the Authorization header, token type and access token separated by a space. -/
def Auth.String (a : Auth) : GoString := a.TokenType ++ lit " " ++ a.AccessToken

/-- Modelled from the spec: the connection (type `Conn`, declared outside
`statement.go`) with the fields the statement reads. `clientTimeout` is the
field `Timeout` of the HTTP client, in nanoseconds; `oAuth` is a pointer that
may be nil. -/
structure Conn where
  adwordsID : GoString
  developerToken : GoString
  oAuth : Option Auth
  opts : Opts
  clientTimeout : Nat
deriving DecidableEq

/-- Constant `apiUrl`. -/
def apiUrl : GoString := lit "https://adwords.google.com/api/adwords/reportdownload/"

/-- Constant `apiFmt`. -/
def apiFmt : GoString := lit "CSV"

/-- Constant `apiTimeout`: 30 seconds as a `time.Duration` (nanoseconds). -/
def apiTimeout : Nat := 30 * 1000000000

/-- Type `Stmt`, a prepared statement. -/
structure Stmt where
  Db : Conn
  SrcQuery : GoString
deriving DecidableEq

/-! ## Binding -/

/-- Method `Stmt.NumInput`: the number of placeholder parameters. -/
def Stmt.NumInput (s : Stmt) : Nat := stringsCount s.SrcQuery placeholder

/-- The type switch of `Stmt.Bind`: the literal substituted for one argument. -/
def bindLiteral (L : Lib) : Value → GoString
  | .float64 x => L.sprintfF x
  | .int64 v => sprintfD v
  | .bool b => stringsToUpper (formatBool b)
  | .string s => strconvQuote L s
  | .bytes b => strconvQuote L b
  | .time t => strconvQuote L (L.timeString t)
  | .null => lit "%!q(<nil>)"

/-- The loop of `Stmt.Bind`: for each argument in turn, the first placeholder
of the current text is replaced by the literal of the argument. -/
def bindLoop (L : Lib) (q : GoString) (args : List Value) : GoString :=
  args.foldl (fun q rv => stringsReplaceFirst q placeholder (bindLiteral L rv)) q

/-- Method `Stmt.Bind`: the statement afterwards and the error returned. -/
def Stmt.Bind (L : Lib) (s : Stmt) (args : List Value) : Stmt × Option Error :=
  if args.length < s.NumInput then
    (s, some Error.ErrQueryBinding)
  else
    ({ s with SrcQuery := bindLoop L s.SrcQuery args }, none)

/-! ## File path -/

/-- Constant `offset64` of package `hash/fnv`. -/
def fnvOffset64 : Nat := 14695981039346656037

/-- Constant `prime64` of package `hash/fnv`. -/
def fnvPrime64 : Nat := 1099511628211

/-- Method `Write` of the hash returned by `fnv.New64()` (64-bit FNV-1): for
each byte the state is multiplied by the prime (in uint64 arithmetic) and then
xor-ed with the byte. It never returns an error. -/
def sum64Write (h : Nat) (data : GoString) : Nat × Option Error :=
  (data.foldl (fun h c => ((h * fnvPrime64) % 2 ^ 64) ^^^ c.val) h, none)

/-- Function `strings.Join`. -/
def stringsJoin (elems : List GoString) (sep : GoString) : GoString :=
  sep.intercalate elems

/-! ## The world outside the process -/

/-- An HTTP request as built by `download`: the header lines are the pairs
given to `Header.Add`, in order. -/
structure Request where
  method : GoString
  url : GoString
  body : GoString
  header : List (GoString × GoString)
deriving DecidableEq

/-- An HTTP response: the status code and the bytes of the body. -/
structure Response where
  StatusCode : Int
  Body : GoString
deriving DecidableEq

/-- The effects of `download` and `Query` outside the statement, in order. -/
inductive Event where
  | authenticate
  | send (rq : Request)
  | create (name : GoString)
  | copy (name : GoString) (body : GoString)
  | open_ (name : GoString)
deriving DecidableEq

/-- The answers of everything outside the process and of the platform. -/
structure World where
  /-- Library tables and formatters. -/
  lib : Lib
  /-- Function `os.TempDir()`. -/
  tempDir : GoString
  /-- Function `filepath.Join` of two elements. -/
  filepathJoin : GoString → GoString → GoString
  /-- Error of `http.NewRequest` for a method and a URL, nil when valid. -/
  newRequest : GoString → GoString → Option Error
  /-- Method `authenticate` of the connection: its error and the auth material
  afterwards. -/
  authenticate : Auth → Option Error × Auth
  /-- Method `Do` of the HTTP client: a transport error or a response. -/
  clientDo : Request → Except Error Response
  /-- Error of `os.Create`. -/
  osCreate : GoString → Option Error
  /-- Error of `io.Copy` of a body into the named file. -/
  copyBody : GoString → GoString → Option Error
  /-- Error of `os.Open`. -/
  osOpen : GoString → Option Error
  /-- Result of `csv.NewReader(d).ReadAll()` on the named file. -/
  csvReadAll : GoString → Except Error (List (List GoString))

/-- Method `Stmt.filePath`: the path of the file that receives the response,
and the error returned. -/
def Stmt.filePath (W : World) (s : Stmt) : GoString × Option Error :=
  match sum64Write fnvOffset64 s.SrcQuery with
  | (_, some err) => ([], some err)
  | (h, none) =>
    let f := [lit "awql", formatUint h, lit ".", stringsToLower apiFmt]
    (W.filepathJoin W.tempDir (stringsJoin f []), none)

/-! ## Download -/

/-- Digits used by `url.QueryEscape`. -/
def upperhex (i : Nat) : Byte := (lit "0123456789ABCDEF").getD i 0

/-- Function `url.QueryEscape`: letters, digits and the four marks "-_.~" are
kept, a space becomes "+", every other byte is percent-encoded. -/
def queryEscape (s : GoString) : GoString :=
  s.flatMap (fun c =>
    if (0x61 ≤ c.val ∧ c.val ≤ 0x7A) ∨ (0x41 ≤ c.val ∧ c.val ≤ 0x5A)
        ∨ (0x30 ≤ c.val ∧ c.val ≤ 0x39)
        ∨ c.val = 0x2D ∨ c.val = 0x5F ∨ c.val = 0x2E ∨ c.val = 0x7E then [c]
    else if c.val = 0x20 then [0x2B]
    else [0x25, upperhex (c.val >>> 4), upperhex (c.val &&& 15)])

/-- The form body of the request, `url.Values.Encode()` of the two fields
`__rdquery` and `__fmt` (keys are written in sorted order). -/
def formBody (query : GoString) : GoString :=
  lit "__fmt=" ++ queryEscape apiFmt ++ lit "&__rdquery=" ++ queryEscape query

/-- The nine header lines `download` always adds. -/
def baseHeader (db : Conn) : List (GoString × GoString) :=
  [ (lit "Content-Type", lit "application/x-www-form-urlencoded; param=value"),
    (lit "Accept", lit "*/*"),
    (lit "clientCustomerId", db.adwordsID),
    (lit "developerToken", db.developerToken),
    (lit "includeZeroImpressions", formatBool db.opts.IncludeZeroImpressions),
    (lit "skipColumnHeader", formatBool db.opts.SkipColumnHeader),
    (lit "skipReportHeader", formatBool db.opts.SkipReportHeader),
    (lit "skipReportSummary", formatBool db.opts.SkipReportSummary),
    (lit "useRawEnumValues", formatBool db.opts.UseRawEnumValues) ]

/-- What a call of `download` leaves behind: the error returned, the statement
(its connection may have been updated) and the trace of effects. -/
structure Outcome where
  err : Option Error
  stmt : Stmt
  trace : List Event
deriving DecidableEq

/-- Second half of `Stmt.download` (from `s.Db.client.Do(rq)` on): sends the
request, classifies the response by its status code and saves the payload. -/
def Stmt.downloadSend (W : World) (s : Stmt) (name : GoString) (rq : Request)
    (trace : List Event) : Outcome :=
  match W.clientDo rq with
  | .error err => ⟨some err, s, trace ++ [Event.send rq]⟩
  | .ok resp =>
    if resp.StatusCode ≠ 200 then
      if resp.StatusCode = 0 then
        ⟨some Error.ErrNoNetwork, s, trace ++ [Event.send rq]⟩
      else if resp.StatusCode = 400 then
        ⟨some (Error.NewApiError resp.Body), s, trace ++ [Event.send rq]⟩
      else
        ⟨some Error.ErrBadNetwork, s, trace ++ [Event.send rq]⟩
    else
      match W.osCreate name with
      | some err => ⟨some err, s, trace ++ [Event.send rq, Event.create name]⟩
      | none =>
        match W.copyBody name resp.Body with
        | some err =>
          ⟨some err, s, trace ++ [Event.send rq, Event.create name, Event.copy name resp.Body]⟩
        | none =>
          ⟨none, s, trace ++ [Event.send rq, Event.create name, Event.copy name resp.Body]⟩

/-- Method `Stmt.download`: calls the API and saves the response in the file
`name`. -/
def Stmt.download (W : World) (s : Stmt) (name : GoString) : Outcome :=
  let url := apiUrl ++ s.Db.opts.Version
  match W.newRequest (lit "POST") url with
  | some err => ⟨some err, s, []⟩
  | none =>
    let s1 : Stmt := { s with Db := { s.Db with clientTimeout := apiTimeout } }
    let rq : Request := ⟨lit "POST", url, formBody s.SrcQuery, baseHeader s1.Db⟩
    match s1.Db.oAuth with
    | some a =>
      let r := W.authenticate a
      let s2 : Stmt := { s1 with Db := { s1.Db with oAuth := some r.2 } }
      match r.1 with
      | some _ => ⟨some Error.ErrBadToken, s2, [Event.authenticate]⟩
      | none =>
        s2.downloadSend W name
          { rq with header := rq.header ++ [(lit "Authorization", r.2.String)] }
          [Event.authenticate]
    | none => s1.downloadSend W name rq []

/-! ## The cursor and `Query` -/

/-- Modelled from the spec: the row cursor (type `Rows`, declared outside
`statement.go`): the table, the effective row count and the read position.
The zero value `Rows{}` has no data, size 0 and position 0. -/
structure Rows where
  Position : Nat
  Size : Nat
  Data : List (List GoString)
deriving DecidableEq

/-- Modelled from the spec: one read step of the cursor (`Rows.Next`, declared
outside `statement.go`): past the end it signals end-of-data, otherwise it
returns the cells of the row at the position and advances the position by
one. -/
def Rows.Next (r : Rows) : Option (List GoString × Rows) :=
  if r.Size ≤ r.Position then none
  else some (r.Data.getD r.Position [], { r with Position := r.Position + 1 })

/-- Reads the cursor until end-of-data, at most `fuel` times; the rows
returned by the successive read steps. -/
def Rows.drain : Nat → Rows → List (List GoString)
  | 0, _ => []
  | fuel + 1, r =>
    match r.Next with
    | none => []
    | some (row, r1) => row :: Rows.drain fuel r1

/-- The last step of `Stmt.Query`: the cursor built from the parsed table.
The length of a slice is a non-negative `int`, so `uint(l)` is `l`. -/
def queryRows (rs : List (List GoString)) : Rows :=
  if rs.length > 1 then { Size := rs.length, Data := rs, Position := 1 }
  else { Size := 0, Data := [], Position := 0 }

/-- What a call of `Query` returns and leaves behind: the cursor and the error
(the two results of the Go method), the statement and the trace of effects. -/
structure QueryOutcome where
  rows : Option Rows
  err : Option Error
  stmt : Stmt
  trace : List Event
deriving DecidableEq

/-- Method `Stmt.Query`: binds the arguments, downloads the report into the
file named after the query and parses it. -/
def Stmt.Query (W : World) (s : Stmt) (args : List Value) : QueryOutcome :=
  match s.Bind W.lib args with
  | (s1, some err) => ⟨none, some err, s1, []⟩
  | (s1, none) =>
    match s1.filePath W with
    | (_, some err) => ⟨none, some err, s1, []⟩
    | (f, none) =>
      let d := s1.download W f
      match d.err with
      | some err => ⟨none, some err, d.stmt, d.trace⟩
      | none =>
        match W.osOpen f with
        | some err => ⟨none, some err, d.stmt, d.trace ++ [Event.open_ f]⟩
        | none =>
          match W.csvReadAll f with
          | .error err => ⟨none, some err, d.stmt, d.trace ++ [Event.open_ f]⟩
          | .ok rs => ⟨some (queryRows rs), none, d.stmt, d.trace ++ [Event.open_ f]⟩


/-! ## Reference definitions, written after the specification -/

/-- Follows the words of the spec ("substitution proceeds left to right,
replacing one placeholder per argument, in argument order"): one pass over the
template in which the i-th placeholder is replaced by the i-th literal, every
other byte is copied, and placeholders without a literal are kept. -/
def specSubstitute : GoString → List GoString → GoString
  | [], _ => []
  | c :: t, [] => c :: t
  | c :: t, l :: ls =>
    if c = placeholder then l ++ specSubstitute t ls
    else c :: specSubstitute t (l :: ls)

/-- The kinds of argument the binding claims speak about: booleans, int64
integers and strings. -/
def Value.isBoolIntString : Value → Bool
  | .bool _ => true
  | .int64 _ => true
  | .string _ => true
  | _ => false

/-- Follows the words of the claims on binding: the literal of an argument is
TRUE or FALSE for a boolean, the base-10 digits (with a leading minus sign when
negative) for an integer, the double-quoted escaped literal for a string. The
other kinds are outside those claims. -/
def specLiteral (L : Lib) : Value → GoString
  | .bool true => lit "TRUE"
  | .bool false => lit "FALSE"
  | .int64 v => lit (toString v)
  | .string t => strconvQuote L t
  | _ => []

/-- A template written as its pieces: each piece of `pieces` is followed by a
placeholder, `last` is the text after the final placeholder. -/
def templateOf (pieces : List GoString) (last : GoString) : GoString :=
  (pieces.map (fun p => p ++ [placeholder])).flatten ++ last

/-- The pieces of a template with each placeholder replaced by the literal at
the same index. -/
def filledTemplate (pieces : List GoString) (lits : List GoString) (last : GoString) :
    GoString :=
  (List.zipWith (fun p l => p ++ l) pieces lits).flatten ++ last

/-- Follows the words of the claim on escaping: reads the inside of a
double-quoted literal from the left. A backslash escapes the byte after it; the
first double quote that is not escaped ends the literal, and the text after it
is returned. Without such a quote the literal is not terminated. -/
def scanLiteralBody : Bool → GoString → Option GoString
  | _, [] => none
  | true, _ :: rest => scanLiteralBody false rest
  | false, c :: rest =>
    if c = dquote then some rest
    else if c = backslash then scanLiteralBody true rest
    else scanLiteralBody false rest

/-- Reads one double-quoted literal at the start of a text: the text that
follows its closing quote, or nothing when the text does not start with a
terminated literal. -/
def scanLiteral : GoString → Option GoString
  | [] => none
  | c :: rest => if c = dquote then scanLiteralBody false rest else none

/-- Whether a byte is one of the two bytes that matter inside a double-quoted
literal: the quote, which would end it, and the backslash, which escapes. -/
def isMark (b : Byte) : Bool := decide (b = dquote ∨ b = backslash)

/-- Follows the words of the claim on escaping: reads the inside of a
double-quoted literal from the left, a backslash escaping the byte after it,
and returns the quotes and backslashes that are escaped, that is, those that
come right after an escaping backslash, in the order they occur. The reading
stops at the first double quote that is not escaped. -/
def escapedMarks : Bool → GoString → List Byte
  | _, [] => []
  | true, c :: rest =>
    if isMark c then c :: escapedMarks false rest else escapedMarks false rest
  | false, c :: rest =>
    if c = dquote then []
    else if c = backslash then escapedMarks true rest
    else escapedMarks false rest

/-- The escaped quotes and backslashes of the double-quoted literal at the
start of a text, in order; nothing when the text does not start with a
quote. -/
def literalMarks : GoString → List Byte
  | [] => []
  | c :: rest => if c = dquote then escapedMarks false rest else []

/-- Follows the words of the claim on the file name: the 64-bit FNV-1 hash of
a byte sequence given from its last byte to its first. The hash of no bytes is
the offset basis; a further byte multiplies the hash by the FNV prime modulo
2^64 and then xors the byte into it. -/
def specFnv1Rev : GoString → Nat
  | [] => 14695981039346656037
  | b :: earlier => ((specFnv1Rev earlier * 1099511628211) % 2 ^ 64) ^^^ b.val

/-- The 64-bit FNV-1 hash of the bytes of `q`. -/
def specFnv1 (q : GoString) : Nat := specFnv1Rev q.reverse

/-! ## Sample inputs -/

/-- A library whose print tables hold no rune above U+00FF and whose float
and time formatters are not exercised. -/
def plainLib : Lib := ⟨fun _ => false, fun _ => [], fun _ => []⟩

/-- A connection without auth material. -/
def plainConn : Conn :=
  ⟨lit "123-456-7890", lit "dEve1op3er7okeN", none,
    ⟨lit "v201607", false, false, false, false, false⟩, 0⟩

/-- A connection with a bare access token. -/
def tokenConn : Conn :=
  { plainConn with
    oAuth := some ⟨[], [], [], lit "ya29.AcC3s57okeN", lit "Bearer", 0⟩ }

/-- A report of three rows: the column header and two data rows. -/
def sampleTable : List (List GoString) :=
  [[lit "Campaign", lit "Clicks"], [lit "Spring", lit "12"], [lit "Summer", lit "7"]]

/-- A world on a Unix-like platform in which the file system works and the
parsed report is `sampleTable`; the answers of the token refresh and of the
HTTP client are given. -/
def sampleWorld (authErr : Option Error) (answer : Except Error Response) : World where
  lib := plainLib
  tempDir := lit "/tmp"
  filepathJoin := fun dir name => dir ++ lit "/" ++ name
  newRequest := fun _ _ => none
  authenticate := fun a => (authErr, a)
  clientDo := fun _ => answer
  osCreate := fun _ => none
  copyBody := fun _ _ => none
  osOpen := fun _ => none
  csvReadAll := fun _ => Except.ok sampleTable

/-! ## Theorems -/

/-- C1: `Stmt.Bind` returns `ErrQueryBinding` exactly when there are strictly
fewer arguments than `NumInput()`, which is the number of "?" bytes of the
template; in that case the statement (so its `SrcQuery`) is left unchanged,
and in every other case `Bind` returns no error. -/
theorem Bind_error_iff_too_few_args (L : Lib) (s : Stmt) (args : List Value) :
    s.NumInput = (s.SrcQuery.filter (fun c => c = 0x3F)).length ∧
    ((s.Bind L args).2 = some Error.ErrQueryBinding ↔ args.length < s.NumInput) ∧
    (args.length < s.NumInput → (s.Bind L args).1 = s) ∧
    (¬ args.length < s.NumInput → (s.Bind L args).2 = none) := by
  refine ⟨?_, ?_, ?_, ?_⟩
  · simp only [Stmt.NumInput, stringsCount, placeholder, List.count, List.countP_eq_length_filter]
    congr 1
  · unfold Stmt.Bind
    by_cases h : args.length < s.NumInput <;> simp [h]
  · intro h
    simp [Stmt.Bind, h]
  · intro h
    simp [Stmt.Bind, h]

/-- Witness for C1: a template with two placeholders bound with one argument. -/
theorem Bind_error_iff_too_few_args_witness :
    (Stmt.Bind plainLib ⟨plainConn, lit "a = ? AND b = ?"⟩ [Value.bool true]).2
        = some Error.ErrQueryBinding ∧
      (Stmt.Bind plainLib ⟨plainConn, lit "a = ? AND b = ?"⟩ [Value.bool true]).1
        = ⟨plainConn, lit "a = ? AND b = ?"⟩ :=
  ⟨(Bind_error_iff_too_few_args plainLib ⟨plainConn, lit "a = ? AND b = ?"⟩
      [Value.bool true]).2.1.2 (by decide),
   (Bind_error_iff_too_few_args plainLib ⟨plainConn, lit "a = ? AND b = ?"⟩
      [Value.bool true]).2.2.1 (by decide)⟩

/-! ### Substitution lemmas -/

theorem specSubstitute_nil_lits (q : GoString) : specSubstitute q [] = q := by
  cases q <;> rfl

theorem replaceFirst_append_of_not_mem (p q v : GoString) (old : Byte) (hp : old ∉ p) :
    stringsReplaceFirst (p ++ q) old v = p ++ stringsReplaceFirst q old v := by
  induction p with
  | nil => rfl
  | cons c t ih =>
    have hc : c ≠ old := fun h => hp (by simp [h])
    have ht : old ∉ t := fun h => hp (by simp [h])
    simp [stringsReplaceFirst, hc, ih ht]

theorem bindLoop_cons (L : Lib) (q : GoString) (a : Value) (args : List Value) :
    bindLoop L q (a :: args)
      = bindLoop L (stringsReplaceFirst q placeholder (bindLiteral L a)) args := rfl

theorem bindLoop_nil_query (L : Lib) (args : List Value) : bindLoop L [] args = [] := by
  induction args with
  | nil => rfl
  | cons a t ih => rw [bindLoop_cons]; exact ih

theorem bindLoop_append_of_not_mem (L : Lib) (p : GoString) (hp : placeholder ∉ p)
    (args : List Value) (q : GoString) :
    bindLoop L (p ++ q) args = p ++ bindLoop L q args := by
  induction args generalizing q with
  | nil => rfl
  | cons a t ih =>
    rw [bindLoop_cons, bindLoop_cons, replaceFirst_append_of_not_mem _ _ _ _ hp, ih]

/-- When no literal contains the placeholder, the loop of `Bind` computes the
one-pass substitution. -/
theorem bindLoop_eq_specSubstitute (L : Lib) (q : GoString) (args : List Value)
    (hfree : ∀ a ∈ args, placeholder ∉ bindLiteral L a) :
    bindLoop L q args = specSubstitute q (args.map (bindLiteral L)) := by
  induction q generalizing args with
  | nil => rw [bindLoop_nil_query]; rfl
  | cons c t ih =>
    cases args with
    | nil => rfl
    | cons a rest =>
      have hrest : ∀ b ∈ rest, placeholder ∉ bindLiteral L b :=
        fun b hb => hfree b (List.mem_cons_of_mem _ hb)
      by_cases hc : c = placeholder
      · subst hc
        rw [bindLoop_cons]
        simp only [stringsReplaceFirst, if_true, List.map_cons, specSubstitute]
        rw [bindLoop_append_of_not_mem L _ (hfree a (List.mem_cons_self _ _)), ih rest hrest]
      · have hnot : placeholder ∉ [c] := by
          simp only [List.mem_singleton]
          exact fun h => hc h.symm
        have := bindLoop_append_of_not_mem L [c] hnot (a :: rest) t
        simp only [List.singleton_append] at this
        rw [this, ih (a :: rest) hfree]
        simp [specSubstitute, hc]

theorem count_specSubstitute (q : GoString) (lits : List GoString)
    (hfree : ∀ l ∈ lits, placeholder ∉ l) :
    (specSubstitute q lits).count placeholder = q.count placeholder - lits.length := by
  induction q generalizing lits with
  | nil => simp [specSubstitute]
  | cons c t ih =>
    cases lits with
    | nil => simp [specSubstitute]
    | cons l ls =>
      have hls : ∀ m ∈ ls, placeholder ∉ m :=
        fun m hm => hfree m (List.mem_cons_of_mem _ hm)
      have hl : l.count placeholder = 0 :=
        List.count_eq_zero.mpr (hfree l (List.mem_cons_self _ _))
      by_cases hc : c = placeholder
      · subst hc
        simp only [specSubstitute, if_true, List.count_append, hl, ih ls hls,
          List.count_cons_self, List.length_cons]
        omega
      · simp only [specSubstitute, hc, if_false, List.length_cons]
        rw [List.count_cons_of_ne (fun h => hc h.symm), List.count_cons_of_ne (fun h => hc h.symm),
          ih (l :: ls) hfree]
        simp

theorem specSubstitute_append_of_not_mem (p : GoString) (hp : placeholder ∉ p)
    (q : GoString) (lits : List GoString) :
    specSubstitute (p ++ q) lits = p ++ specSubstitute q lits := by
  induction p with
  | nil => rfl
  | cons c t ih =>
    have hc : c ≠ placeholder := fun h => hp (by simp [h])
    have ht : placeholder ∉ t := fun h => hp (by simp [h])
    cases lits with
    | nil => simp [specSubstitute_nil_lits]
    | cons l ls => simp [specSubstitute, hc, ih ht]

theorem specSubstitute_take (q : GoString) (lits : List GoString) :
    specSubstitute q (lits.take (q.count placeholder)) = specSubstitute q lits := by
  induction q generalizing lits with
  | nil => simp [specSubstitute]
  | cons c t ih =>
    cases lits with
    | nil => simp
    | cons l ls =>
      by_cases hc : c = placeholder
      · subst hc
        simp [specSubstitute, ih ls]
      · rw [List.count_cons_of_ne (fun h => hc h.symm)]
        cases hk : t.count placeholder with
        | zero =>
          have ht : placeholder ∉ t := List.count_eq_zero.mp hk
          have h1 := specSubstitute_append_of_not_mem (c :: t)
            (by
              intro hmem
              rcases List.mem_cons.mp hmem with h | h
              · exact hc h.symm
              · exact ht h) [] (l :: ls)
          simp only [List.append_nil] at h1
          rw [h1]
          simp [specSubstitute]
        | succ k =>
          have := ih (l :: ls)
          rw [hk] at this
          simp only [List.take_succ_cons] at this ⊢
          simp [specSubstitute, hc, this]

theorem count_templateOf (pieces : List GoString) (last : GoString)
    (hp : ∀ p ∈ pieces, placeholder ∉ p) (hl : placeholder ∉ last) :
    (templateOf pieces last).count placeholder = pieces.length := by
  induction pieces with
  | nil =>
    have h0 : last.count placeholder = 0 := List.count_eq_zero.mpr hl
    simp [templateOf, h0]
  | cons p ps ih =>
    have h1 : p.count placeholder = 0 := List.count_eq_zero.mpr (hp p (List.mem_cons_self _ _))
    have h2 := ih (fun x hx => hp x (List.mem_cons_of_mem _ hx))
    simp only [templateOf, List.map_cons, List.flatten_cons, List.append_assoc,
      List.count_append, h1, List.length_cons] at h2 ⊢
    rw [h2]
    simp
    omega

/-- The one-pass substitution, spelled out on the pieces of the template: the
text between placeholders is kept and the i-th placeholder becomes the i-th
literal. -/
theorem specSubstitute_templateOf (pieces : List GoString) (last : GoString)
    (lits : List GoString) (hp : ∀ p ∈ pieces, placeholder ∉ p)
    (hl : placeholder ∉ last) (hlen : pieces.length ≤ lits.length) :
    specSubstitute (templateOf pieces last) lits = filledTemplate pieces lits last := by
  induction pieces generalizing lits with
  | nil =>
    have := specSubstitute_append_of_not_mem last hl [] lits
    simp only [List.append_nil] at this
    simp [templateOf, filledTemplate, this, specSubstitute]
  | cons p ps ih =>
    cases lits with
    | nil => simp at hlen
    | cons l ls =>
      have h1 := ih ls (fun x hx => hp x (List.mem_cons_of_mem _ hx))
        (by simpa using hlen)
      simp only [templateOf, filledTemplate, List.map_cons, List.flatten_cons,
        List.append_assoc, List.zipWith_cons_cons] at h1 ⊢
      rw [specSubstitute_append_of_not_mem p (hp p (List.mem_cons_self _ _))]
      simp [specSubstitute, h1]

/-! ### Literals -/

theorem appendRune_digitChar (d : Nat) (hd : d < 10) :
    appendRune (Nat.digitChar d).toNat = [mkByte (0x30 + d)] := by
  interval_cases d <;> decide

theorem formatBits_eq_toDigitsCore (fuel n : Nat) (ds : List Char) :
    formatBits fuel n (ds.flatMap (fun c => appendRune c.toNat))
      = (Nat.toDigitsCore 10 fuel n ds).flatMap (fun c => appendRune c.toNat) := by
  induction fuel generalizing n ds with
  | zero => rfl
  | succ f ih =>
    have hd := appendRune_digitChar (n % 10) (Nat.mod_lt _ (by decide))
    by_cases hn : n < 10
    · have h0 : n / 10 = 0 := Nat.div_eq_of_lt hn
      have hm : n % 10 = n := Nat.mod_eq_of_lt hn
      simp only [formatBits, hn, if_true, Nat.toDigitsCore, h0, List.flatMap_cons]
      rw [hm] at hd
      rw [hm, hd]; rfl
    · have h0 : n / 10 ≠ 0 := by omega
      simp only [formatBits, hn, if_false, Nat.toDigitsCore, h0]
      rw [← ih]
      simp only [List.flatMap_cons, hd]; rfl

/-- The digits written by `strconv.FormatUint(n, 10)` are the decimal
representation of `n`. -/
theorem formatUint_eq_repr (n : Nat) : formatUint n = lit (toString n) := by
  have := formatBits_eq_toDigitsCore (n + 1) n []
  simpa [formatUint, lit, Nat.repr, Nat.toDigits] using this

/-- The verb `%d` writes the decimal representation of a signed integer. -/
theorem sprintfD_eq_repr (v : Int) : sprintfD v = lit (toString v) := by
  unfold sprintfD
  cases v with
  | ofNat m =>
    have : ¬ (Int.ofNat m < 0) := by simp
    rw [if_neg this, formatUint_eq_repr]
    rfl
  | negSucc m =>
    have : Int.negSucc m < 0 := Int.negSucc_lt_zero m
    rw [if_pos this, formatUint_eq_repr]
    show _ = lit (Int.repr (Int.negSucc m))
    have h45 : appendRune 45 = [0x2D] := by decide
    simp [Int.repr, lit, Int.natAbs, h45]
    rfl

/-- On booleans, int64 integers and strings the type switch of `Bind` yields
the literal described by the claims. -/
theorem bindLiteral_eq_specLiteral (L : Lib) (a : Value) (h : a.isBoolIntString = true) :
    bindLiteral L a = specLiteral L a := by
  cases a with
  | bool b =>
    cases b
    · show stringsToUpper (formatBool false) = lit "FALSE"
      decide
    · show stringsToUpper (formatBool true) = lit "TRUE"
      decide
  | int64 v => exact sprintfD_eq_repr v
  | string t => rfl
  | null => simp [Value.isBoolIntString] at h
  | float64 x => simp [Value.isBoolIntString] at h
  | bytes b => simp [Value.isBoolIntString] at h
  | time t => simp [Value.isBoolIntString] at h

theorem map_bindLiteral_eq (L : Lib) (args : List Value)
    (hkind : ∀ a ∈ args, a.isBoolIntString = true) :
    args.map (bindLiteral L) = args.map (specLiteral L) :=
  List.map_congr_left (fun a ha => bindLiteral_eq_specLiteral L a (hkind a ha))

/-! ### Binding theorems -/

theorem Bind_of_enough_args (L : Lib) (s : Stmt) (args : List Value)
    (h : s.NumInput ≤ args.length) :
    s.Bind L args = (⟨s.Db, bindLoop L s.SrcQuery args⟩, none) := by
  unfold Stmt.Bind
  rw [if_neg (by omega)]

/-- C2, as stated, fails: the template has one placeholder and is bound with
exactly one string argument, `Bind` succeeds, and the stored text
`name = "why?"` still holds one placeholder byte, so `NumInput()` is 1. -/
theorem Bind_exact_args_counterexample :
    Stmt.NumInput ⟨plainConn, lit "name = ?"⟩ = 1 ∧
    [Value.string (lit "why?")].length = 1 ∧
    (Stmt.Bind plainLib ⟨plainConn, lit "name = ?"⟩ [Value.string (lit "why?")]).2 = none ∧
    (Stmt.Bind plainLib ⟨plainConn, lit "name = ?"⟩ [Value.string (lit "why?")]).1.SrcQuery
      = lit "name = " ++ [dquote] ++ lit "why?" ++ [dquote] ∧
    (Stmt.Bind plainLib ⟨plainConn, lit "name = ?"⟩ [Value.string (lit "why?")]).1.NumInput = 1 ∧
    ¬ (Stmt.Bind plainLib ⟨plainConn, lit "name = ?"⟩ [Value.string (lit "why?")]).1.NumInput
      = 0 := by
  decide

/-- C2, amended: for a template with N placeholders and exactly N arguments
(booleans, int64 integers or strings) none of whose literals contains the
placeholder byte, `Bind` succeeds and the stored template has no placeholder
left: `NumInput()` returns 0. -/
theorem Bind_exact_args_no_placeholder_left (L : Lib) (s : Stmt) (args : List Value)
    (hlen : args.length = s.NumInput)
    (_hkind : ∀ a ∈ args, a.isBoolIntString = true)
    (hfree : ∀ a ∈ args, placeholder ∉ bindLiteral L a) :
    (s.Bind L args).2 = none ∧ (s.Bind L args).1.NumInput = 0 := by
  have hlits : ∀ l ∈ args.map (bindLiteral L), placeholder ∉ l := by
    intro l hl
    rcases List.mem_map.mp hl with ⟨a, ha, rfl⟩
    exact hfree a ha
  rw [Bind_of_enough_args L s args (by omega)]
  refine ⟨rfl, ?_⟩
  show (bindLoop L s.SrcQuery args).count placeholder = 0
  rw [bindLoop_eq_specSubstitute L _ _ hfree,
    count_specSubstitute _ _ hlits, List.length_map, hlen]
  simp [Stmt.NumInput, stringsCount]

/-- Witness for C2 amended: two placeholders, a boolean and a string. -/
theorem Bind_exact_args_no_placeholder_left_witness :
    (Stmt.Bind plainLib ⟨plainConn, lit "a = ? AND b = ?"⟩
        [Value.bool true, Value.string (lit "foo")]).2 = none ∧
    (Stmt.Bind plainLib ⟨plainConn, lit "a = ? AND b = ?"⟩
        [Value.bool true, Value.string (lit "foo")]).1.NumInput = 0 :=
  Bind_exact_args_no_placeholder_left plainLib ⟨plainConn, lit "a = ? AND b = ?"⟩
    [Value.bool true, Value.string (lit "foo")] (by decide) (by decide) (by decide)

/-- C10: for a template with N placeholders and at least N arguments, all
booleans, int64 integers or strings, none of whose literals contains the
placeholder byte, `Bind` succeeds and stores the one-pass substitution of the
template: the i-th placeholder, counted from the left, is replaced by the
literal of the i-th argument (TRUE or FALSE, the decimal digits with a leading
minus sign when negative, the quoted literal of a string), the text between
placeholders is unchanged and the arguments after the N-th have no effect. -/
theorem Bind_replaces_placeholders_in_order (L : Lib) (s : Stmt) (args : List Value)
    (hlen : s.NumInput ≤ args.length)
    (hkind : ∀ a ∈ args, a.isBoolIntString = true)
    (hfree : ∀ a ∈ args, placeholder ∉ bindLiteral L a) :
    (s.Bind L args).2 = none ∧
    (s.Bind L args).1.Db = s.Db ∧
    (s.Bind L args).1.SrcQuery = specSubstitute s.SrcQuery (args.map (specLiteral L)) ∧
    (s.Bind L args).1.SrcQuery
      = specSubstitute s.SrcQuery ((args.take s.NumInput).map (specLiteral L)) ∧
    (∀ pieces last, s.SrcQuery = templateOf pieces last →
      (∀ p ∈ pieces, placeholder ∉ p) → placeholder ∉ last →
      pieces.length = s.NumInput ∧
      (s.Bind L args).1.SrcQuery
        = filledTemplate pieces (args.map (specLiteral L)) last) := by
  have hB := Bind_of_enough_args L s args hlen
  have hq : (s.Bind L args).1.SrcQuery
      = specSubstitute s.SrcQuery (args.map (specLiteral L)) := by
    rw [hB]
    show bindLoop L s.SrcQuery args = _
    rw [bindLoop_eq_specSubstitute L _ _ hfree, map_bindLiteral_eq L args hkind]
  refine ⟨by rw [hB], by rw [hB], hq, ?_, ?_⟩
  · rw [hq, List.map_take]
    exact (specSubstitute_take _ _).symm
  · intro pieces last htpl hp hl
    have hcount : pieces.length = s.NumInput := by
      rw [Stmt.NumInput, stringsCount, htpl, count_templateOf pieces last hp hl]
    refine ⟨hcount, ?_⟩
    rw [hq, htpl]
    apply specSubstitute_templateOf pieces last _ hp hl
    rw [List.length_map]
    omega

/-- Witness for C10: three placeholders and four arguments. -/
theorem Bind_replaces_placeholders_in_order_witness :
    (Stmt.Bind plainLib ⟨plainConn, lit "a = ? AND b = ? AND c = ?"⟩
        [Value.bool true, Value.int64 (-12), Value.string (lit "foo"), Value.bool false]).2
      = none ∧
    (Stmt.Bind plainLib ⟨plainConn, lit "a = ? AND b = ? AND c = ?"⟩
        [Value.bool true, Value.int64 (-12), Value.string (lit "foo"), Value.bool false]).1.SrcQuery
      = lit "a = TRUE AND b = -12 AND c = " ++ [dquote] ++ lit "foo" ++ [dquote] :=
  ⟨(Bind_replaces_placeholders_in_order plainLib ⟨plainConn, lit "a = ? AND b = ? AND c = ?"⟩
      [Value.bool true, Value.int64 (-12), Value.string (lit "foo"), Value.bool false]
      (by decide) (by decide) (by decide)).1,
   (Bind_replaces_placeholders_in_order plainLib ⟨plainConn, lit "a = ? AND b = ? AND c = ?"⟩
      [Value.bool true, Value.int64 (-12), Value.string (lit "foo"), Value.bool false]
      (by decide) (by decide) (by decide)).2.2.1.trans (by decide)⟩

/-! ### Escaping -/

theorem scan_plain (p : GoString) (hp : ∀ b ∈ p, b ≠ dquote ∧ b ≠ backslash)
    (tail : GoString) :
    scanLiteralBody false (p ++ tail) = scanLiteralBody false tail := by
  induction p with
  | nil => rfl
  | cons c t ih =>
    have hc := hp c (List.mem_cons_self _ _)
    have ht := ih (fun b hb => hp b (List.mem_cons_of_mem _ hb))
    simp [scanLiteralBody, hc.1, hc.2, ht]

theorem scan_escape (b : Byte) (tail : GoString) :
    scanLiteralBody false (backslash :: b :: tail) = scanLiteralBody false tail := by
  have h : backslash ≠ dquote := by decide
  simp [scanLiteralBody, h]

theorem scan_escape_plain (b : Byte) (p : GoString)
    (hp : ∀ c ∈ p, c ≠ dquote ∧ c ≠ backslash) (tail : GoString) :
    scanLiteralBody false ((backslash :: b :: p) ++ tail) = scanLiteralBody false tail := by
  rw [List.cons_append, List.cons_append, scan_escape, scan_plain p hp]

theorem lowerhex_plain (i : Nat) : lowerhex i ≠ dquote ∧ lowerhex i ≠ backslash := by
  by_cases hi : i < 16
  · interval_cases i <;> decide
  · have : lowerhex i = 0 := by
      unfold lowerhex
      apply List.getD_eq_default
      have : (lit "0123456789abcdef").length = 16 := by decide
      omega
    rw [this]
    decide

theorem hexDigits_plain (n r : Nat) : ∀ b ∈ hexDigits n r, b ≠ dquote ∧ b ≠ backslash := by
  induction n with
  | zero => intro b hb; simp [hexDigits] at hb
  | succ k ih =>
    intro b hb
    rcases List.mem_cons.mp hb with h | h
    · rw [h]; exact lowerhex_plain _
    · exact ih b h

set_option maxRecDepth 100000 in
theorem lead_byte_plain : ∀ x : Byte,
    (((0xC0 : Byte) ||| x) ≠ dquote ∧ ((0xC0 : Byte) ||| x) ≠ backslash) ∧
    (((0xE0 : Byte) ||| x) ≠ dquote ∧ ((0xE0 : Byte) ||| x) ≠ backslash) ∧
    (((0xF0 : Byte) ||| x) ≠ dquote ∧ ((0xF0 : Byte) ||| x) ≠ backslash) := by
  decide

set_option maxRecDepth 100000 in
theorem continuation_byte_plain : ∀ x : Byte,
    ((0x80 : Byte) ||| (x &&& 0x3F)) ≠ dquote ∧ ((0x80 : Byte) ||| (x &&& 0x3F)) ≠ backslash := by
  decide

theorem mkByte_ne_of_small (r : Nat) (b : Byte) (hr : r ≤ 0x7F) (hne : r ≠ b.val) :
    mkByte r ≠ b := by
  intro h
  apply hne
  have := congrArg Fin.val h
  simp only [mkByte] at this
  omega

/-- The UTF-8 encoding of a rune other than the quote and the backslash holds
neither a quote byte nor a backslash byte. -/
theorem appendRune_plain (r : Nat) (h1 : r ≠ 0x22) (h2 : r ≠ 0x5C) :
    ∀ b ∈ appendRune r, b ≠ dquote ∧ b ≠ backslash := by
  intro b hb
  unfold appendRune at hb
  split at hb
  · rename_i hr
    rw [List.mem_singleton] at hb
    rw [hb]
    exact ⟨mkByte_ne_of_small r dquote hr h1, mkByte_ne_of_small r backslash hr h2⟩
  · split at hb
    · simp only [List.mem_cons, List.mem_singleton, List.not_mem_nil, or_false] at hb
      rcases hb with h | h <;> rw [h]
      · exact (lead_byte_plain _).1
      · exact continuation_byte_plain _
    · split at hb
      · simp only [List.mem_cons, List.mem_singleton, List.not_mem_nil, or_false] at hb
        rcases hb with h | h | h <;> rw [h]
        · exact (lead_byte_plain _).2.1
        · exact continuation_byte_plain _
        · exact continuation_byte_plain _
      · split at hb
        · simp only [List.mem_cons, List.mem_singleton, List.not_mem_nil, or_false] at hb
          rcases hb with h | h | h <;> rw [h]
          · exact (lead_byte_plain _).2.1
          · exact continuation_byte_plain _
          · exact continuation_byte_plain _
        · simp only [List.mem_cons, List.mem_singleton, List.not_mem_nil, or_false] at hb
          rcases hb with h | h | h | h <;> rw [h]
          · exact (lead_byte_plain _).2.2
          · exact continuation_byte_plain _
          · exact continuation_byte_plain _
          · exact continuation_byte_plain _

theorem hex_escape_balanced (c : Byte) (i j : Nat) (rest tail : GoString) :
    scanLiteralBody false ((backslash :: c :: lowerhex i :: lowerhex j :: rest) ++ tail)
      = scanLiteralBody false (rest ++ tail) := by
  have hi := lowerhex_plain i
  have hj := lowerhex_plain j
  rw [List.cons_append, List.cons_append, scan_escape]
  show scanLiteralBody false (lowerhex i :: lowerhex j :: (rest ++ tail)) = _
  simp only [scanLiteralBody, hi.1, hi.2, hj.1, hj.2, if_false]

theorem letter_escape_balanced (t : String) (ht : (lit t).length = 1) (tail : GoString) :
    scanLiteralBody false ((backslash :: lit t) ++ tail) = scanLiteralBody false tail := by
  match hl : lit t, ht with
  | [c], _ => exact scan_escape c tail

/-- Every chunk written by `appendEscapedRune` is read as a whole by the
scanner: it never ends the literal and never leaves an escape open. -/
theorem appendEscapedRune_balanced (L : Lib) (r : Nat) (tail : GoString) :
    scanLiteralBody false (appendEscapedRune L r ++ tail) = scanLiteralBody false tail := by
  have hx : lit "x" = [0x78] := by decide
  have hu : lit "u" = [0x75] := by decide
  have hU : lit "U" = [0x55] := by decide
  unfold appendEscapedRune
  by_cases h0 : r = 0x22 ∨ r = 0x5C
  · rw [if_pos h0]; exact scan_escape _ _
  rw [if_neg h0]
  have h1 : r ≠ 0x22 := fun h => h0 (Or.inl h)
  have h2 : r ≠ 0x5C := fun h => h0 (Or.inr h)
  by_cases hp : isPrint L r = true
  · rw [if_pos hp]; exact scan_plain _ (appendRune_plain r h1 h2) tail
  rw [if_neg hp]
  by_cases c1 : r = 0x07
  · rw [if_pos c1]; exact letter_escape_balanced _ (by decide) tail
  rw [if_neg c1]
  by_cases c2 : r = 0x08
  · rw [if_pos c2]; exact letter_escape_balanced _ (by decide) tail
  rw [if_neg c2]
  by_cases c3 : r = 0x0C
  · rw [if_pos c3]; exact letter_escape_balanced _ (by decide) tail
  rw [if_neg c3]
  by_cases c4 : r = 0x0A
  · rw [if_pos c4]; exact letter_escape_balanced _ (by decide) tail
  rw [if_neg c4]
  by_cases c5 : r = 0x0D
  · rw [if_pos c5]; exact letter_escape_balanced _ (by decide) tail
  rw [if_neg c5]
  by_cases c6 : r = 0x09
  · rw [if_pos c6]; exact letter_escape_balanced _ (by decide) tail
  rw [if_neg c6]
  by_cases c7 : r = 0x0B
  · rw [if_pos c7]; exact letter_escape_balanced _ (by decide) tail
  rw [if_neg c7]
  by_cases c8 : r < 0x20 ∨ r = 0x7F
  · rw [if_pos c8, hx]
    exact hex_escape_balanced 0x78 ((mkByte r).val >>> 4) ((mkByte r).val &&& 0xF) [] tail
  rw [if_neg c8]
  by_cases c9 : (!validRune r) = true
  · rw [if_pos c9, hu]
    exact scan_escape_plain _ _ (hexDigits_plain 4 0xFFFD) tail
  rw [if_neg c9]
  by_cases c10 : r < 0x10000
  · rw [if_pos c10, hu]
    exact scan_escape_plain _ _ (hexDigits_plain 4 r) tail
  · rw [if_neg c10, hU]
    exact scan_escape_plain _ _ (hexDigits_plain 8 r) tail

theorem quoteLoop_zero_cons (L : Lib) (s0 : Byte) (rest : GoString) :
    quoteLoop L 0 (s0 :: rest)
      = if (if s0.val ≥ 0x80 then decodeRune (s0 :: rest) else (s0.val, 1)).2 = 1
            ∧ (if s0.val ≥ 0x80 then decodeRune (s0 :: rest) else (s0.val, 1)).1 = RuneError then
          backslash :: 0x78 :: lowerhex (s0.val >>> 4) :: lowerhex (s0.val &&& 0xF)
            :: quoteLoop L 0 rest
        else
          appendEscapedRune L (if s0.val ≥ 0x80 then decodeRune (s0 :: rest) else (s0.val, 1)).1
            ++ quoteLoop L
              ((if s0.val ≥ 0x80 then decodeRune (s0 :: rest) else (s0.val, 1)).2 - 1) rest := by
  have hx : lit "x" = [0x78] := by decide
  simp only [quoteLoop, hx]
  rfl

theorem quoteLoop_balanced (L : Lib) (s : GoString) :
    ∀ (skip : Nat) (tail : GoString),
      scanLiteralBody false (quoteLoop L skip s ++ tail) = scanLiteralBody false tail := by
  induction s with
  | nil => intro skip tail; cases skip <;> rfl
  | cons s0 rest ih =>
    intro skip tail
    cases skip with
    | succ k => exact ih k tail
    | zero =>
      rw [quoteLoop_zero_cons]
      generalize (if s0.val ≥ 0x80 then decodeRune (s0 :: rest) else (s0.val, 1)) = d
      split
      · rw [hex_escape_balanced, ih]
      · rw [List.append_assoc, appendEscapedRune_balanced, ih]

theorem or_shiftLeft_ge (a b k : Nat) (ha : a ≠ 0) : 2 ^ k ≤ (a <<< k) ||| b := by
  obtain ⟨i, hi⟩ := Nat.ne_zero_implies_bit_true ha
  have hbit : ((a <<< k) ||| b).testBit (k + i) = true := by
    rw [Nat.testBit_or, Nat.testBit_shiftLeft]
    simp [hi]
  have h1 := Nat.testBit_implies_ge hbit
  have h2 : 2 ^ k ≤ 2 ^ (k + i) := Nat.pow_le_pow_right (by decide) (by omega)
  omega

theorem or_shiftLeft_ge_two (a b k : Nat) (ha : 2 ≤ a) : 2 ^ (k + 1) ≤ (a <<< k) ||| b := by
  obtain ⟨i, hge, hi⟩ := Nat.ge_two_pow_implies_high_bit_true (show a ≥ 2 ^ 1 from ha)
  have hbit : ((a <<< k) ||| b).testBit (k + i) = true := by
    rw [Nat.testBit_or, Nat.testBit_shiftLeft]
    simp [hi]
  have h1 := Nat.testBit_implies_ge hbit
  have h2 : 2 ^ (k + 1) ≤ 2 ^ (k + i) := Nat.pow_le_pow_right (by decide) (by omega)
  omega

set_option maxRecDepth 100000 in
theorem lead2_bits : ∀ s0 : Byte, utf8First s0 < 0xF0 → utf8First s0 &&& 7 ≤ 2 →
    2 ≤ s0.val &&& 0x1F := by
  decide

set_option maxRecDepth 100000 in
theorem lead3_bits : ∀ s0 : Byte, utf8First s0 < 0xF0 → ¬ utf8First s0 &&& 7 ≤ 2 →
    utf8First s0 &&& 7 ≤ 3 →
    s0.val &&& 0x0F ≠ 0 ∨ acceptRange (utf8First s0 >>> 4) = (0xA0, 0xBF) := by
  decide

set_option maxRecDepth 100000 in
theorem lead4_bits : ∀ s0 : Byte, utf8First s0 < 0xF0 → ¬ utf8First s0 &&& 7 ≤ 3 →
    s0.val &&& 0x07 ≠ 0 ∨ acceptRange (utf8First s0 >>> 4) = (0x90, 0xBF) := by
  decide

set_option maxRecDepth 100000 in
theorem second_bits : ∀ s1 : Byte, 0x90 ≤ s1.val → s1.val ≤ 0xBF → 2 ≤ s1.val &&& 0x3F := by
  decide

set_option maxRecDepth 100000 in
theorem accept_ge : ∀ s0 : Byte, utf8First s0 < 0xF0 →
    0x80 ≤ (acceptRange (utf8First s0 >>> 4)).1 := by
  decide

/-- What `utf8.DecodeRuneInString` returns on a string that starts with a
non-ASCII byte: the rune is not an ASCII one (so it is neither the quote nor
the backslash), and the bytes after the first that belong to the rune are all
non-ASCII. -/
theorem decodeRune_multibyte (s0 : Byte) (rest : GoString) (h0 : 0x80 ≤ s0.val) :
    0x80 ≤ (decodeRune (s0 :: rest)).1 ∧
    ∀ b ∈ rest.take ((decodeRune (s0 :: rest)).2 - 1), 0x80 ≤ b.val := by
  have hRE : (0x80 : Nat) ≤ RuneError := by decide
  have hi : ∀ (r : Nat), 0x80 ≤ r →
      0x80 ≤ (r, 1).1 ∧ ∀ b ∈ rest.take ((r, 1).2 - 1), 0x80 ≤ b.val := by
    intro r hr
    exact ⟨hr, by simp⟩
  unfold decodeRune
  simp only
  by_cases hx : 0xF0 ≤ utf8First s0
  · rw [if_pos hx]
    by_cases hodd : utf8First s0 % 2 = 1
    · rw [if_pos hodd]; exact hi _ hRE
    · rw [if_neg hodd]; exact hi _ h0
  rw [if_neg hx]
  have hx' : utf8First s0 < 0xF0 := by omega
  have hacc := accept_ge s0 hx'
  by_cases hn : rest.length + 1 < utf8First s0 &&& 7
  · rw [if_pos hn]; exact hi _ hRE
  rw [if_neg hn]
  cases rest with
  | nil => exact ⟨hRE, by simp⟩
  | cons s1 rest1 =>
    simp only
    by_cases h1 : s1.val < (acceptRange (utf8First s0 >>> 4)).1
        ∨ (acceptRange (utf8First s0 >>> 4)).2 < s1.val
    · rw [if_pos h1]; exact ⟨hRE, by simp⟩
    rw [if_neg h1]
    have hs1 : 0x80 ≤ s1.val := by omega
    by_cases hsz2 : utf8First s0 &&& 7 ≤ 2
    · rw [if_pos hsz2]
      refine ⟨or_shiftLeft_ge_two _ _ 6 (lead2_bits s0 hx' hsz2), ?_⟩
      intro b hb
      simp at hb
      rw [hb]; exact hs1
    rw [if_neg hsz2]
    cases rest1 with
    | nil => exact ⟨hRE, by simp⟩
    | cons s2 rest2 =>
      simp only
      by_cases h2 : s2.val < 0x80 ∨ 0xBF < s2.val
      · rw [if_pos h2]; exact ⟨hRE, by simp⟩
      rw [if_neg h2]
      have hs2 : 0x80 ≤ s2.val := by omega
      by_cases hsz3 : utf8First s0 &&& 7 ≤ 3
      · rw [if_pos hsz3]
        refine ⟨?_, ?_⟩
        · rcases lead3_bits s0 hx' hsz2 hsz3 with hA | hA
          · have := or_shiftLeft_ge (s0.val &&& 0x0F)
              (((s1.val &&& 0x3F) <<< 6) ||| (s2.val &&& 0x3F)) 12 hA
            rw [← Nat.or_assoc] at this
            have h12 : (0x80 : Nat) ≤ 2 ^ 12 := by decide
            exact Nat.le_trans h12 this
          · rw [hA] at h1
            have hB := second_bits s1 (by simp at h1; omega) (by simp at h1; omega)
            have := or_shiftLeft_ge_two (s1.val &&& 0x3F)
              (((s0.val &&& 0x0F) <<< 12) ||| (s2.val &&& 0x3F)) 6 hB
            rw [← Nat.or_assoc, Nat.or_comm ((s1.val &&& 0x3F) <<< 6)] at this
            exact this
        · intro b hb
          simp at hb
          rcases hb with hb | hb <;> rw [hb] <;> assumption
      rw [if_neg hsz3]
      cases rest2 with
      | nil => exact ⟨hRE, by simp⟩
      | cons s3 rest3 =>
        simp only
        by_cases h3 : s3.val < 0x80 ∨ 0xBF < s3.val
        · rw [if_pos h3]; exact ⟨hRE, by simp⟩
        rw [if_neg h3]
        have hs3 : 0x80 ≤ s3.val := by omega
        refine ⟨?_, ?_⟩
        · rcases lead4_bits s0 hx' hsz3 with hA | hA
          · have := or_shiftLeft_ge (s0.val &&& 0x07)
              (((s1.val &&& 0x3F) <<< 12) ||| ((s2.val &&& 0x3F) <<< 6) ||| (s3.val &&& 0x3F))
              18 hA
            rw [← Nat.or_assoc, ← Nat.or_assoc] at this
            have h18 : (0x80 : Nat) ≤ 2 ^ 18 := by decide
            exact Nat.le_trans h18 this
          · rw [hA] at h1
            have hB := second_bits s1 (by simp at h1; omega) (by simp at h1; omega)
            have := or_shiftLeft_ge_two (s1.val &&& 0x3F)
              (((s0.val &&& 0x07) <<< 18) ||| ((s2.val &&& 0x3F) <<< 6) ||| (s3.val &&& 0x3F))
              12 hB
            rw [← Nat.or_assoc, ← Nat.or_assoc,
              Nat.or_comm ((s1.val &&& 0x3F) <<< 12)] at this
            have h12 : (0x80 : Nat) ≤ 2 ^ (12 + 1) := by decide
            exact Nat.le_trans h12 this
        · intro b hb
          simp at hb
          rcases hb with hb | hb | hb <;> rw [hb] <;> assumption

theorem count_dquote_escape (c : Byte) (p : GoString) (hc : c ≠ dquote)
    (hp : ∀ b ∈ p, b ≠ dquote ∧ b ≠ backslash) :
    (backslash :: c :: p).count dquote = 0 := by
  apply List.count_eq_zero.mpr
  intro hmem
  rcases List.mem_cons.mp hmem with h | h
  · exact absurd h (by decide)
  · rcases List.mem_cons.mp h with h | h
    · exact hc h.symm
    · exact (hp _ h).1 rfl

theorem count_dquote_letter (t : String) (ht : (lit t).length = 1)
    (hq : dquote ∉ lit t) : (backslash :: lit t).count dquote = 0 := by
  match hl : lit t, ht with
  | [c], _ =>
    rw [hl] at hq
    exact count_dquote_escape c [] (fun h => hq (by simp [h])) (by simp)

/-- The chunk written for a rune holds one quote byte when the rune is the
quote and none otherwise. -/
theorem appendEscapedRune_count (L : Lib) (r : Nat) :
    (appendEscapedRune L r).count dquote = if r = 0x22 then 1 else 0 := by
  have hx : lit "x" = [0x78] := by decide
  have hu : lit "u" = [0x75] := by decide
  have hU : lit "U" = [0x55] := by decide
  unfold appendEscapedRune
  by_cases hq : r = 0x22
  · subst hq
    rw [if_pos (Or.inl rfl)]
    decide
  rw [if_neg hq]
  by_cases hb : r = 0x5C
  · subst hb
    rw [if_pos (Or.inr rfl)]
    decide
  have h0 : ¬ (r = 0x22 ∨ r = 0x5C) := by
    intro h
    rcases h with h | h
    · exact hq h
    · exact hb h
  rw [if_neg h0]
  by_cases hp : isPrint L r = true
  · rw [if_pos hp]
    exact List.count_eq_zero.mpr (fun h => (appendRune_plain r hq hb _ h).1 rfl)
  rw [if_neg hp]
  by_cases c1 : r = 0x07
  · rw [if_pos c1]; exact count_dquote_letter _ (by decide) (by decide)
  rw [if_neg c1]
  by_cases c2 : r = 0x08
  · rw [if_pos c2]; exact count_dquote_letter _ (by decide) (by decide)
  rw [if_neg c2]
  by_cases c3 : r = 0x0C
  · rw [if_pos c3]; exact count_dquote_letter _ (by decide) (by decide)
  rw [if_neg c3]
  by_cases c4 : r = 0x0A
  · rw [if_pos c4]; exact count_dquote_letter _ (by decide) (by decide)
  rw [if_neg c4]
  by_cases c5 : r = 0x0D
  · rw [if_pos c5]; exact count_dquote_letter _ (by decide) (by decide)
  rw [if_neg c5]
  by_cases c6 : r = 0x09
  · rw [if_pos c6]; exact count_dquote_letter _ (by decide) (by decide)
  rw [if_neg c6]
  by_cases c7 : r = 0x0B
  · rw [if_pos c7]; exact count_dquote_letter _ (by decide) (by decide)
  rw [if_neg c7]
  have hhex : ∀ i j : Nat, ∀ b ∈ [lowerhex i, lowerhex j], b ≠ dquote ∧ b ≠ backslash := by
    intro i j b hb
    simp only [List.mem_cons, List.mem_singleton, List.not_mem_nil, or_false] at hb
    rcases hb with h | h <;> rw [h] <;> exact lowerhex_plain _
  by_cases c8 : r < 0x20 ∨ r = 0x7F
  · rw [if_pos c8, hx]
    exact count_dquote_escape 0x78 _ (by decide) (hhex _ _)
  rw [if_neg c8]
  by_cases c9 : (!validRune r) = true
  · rw [if_pos c9, hu]
    exact count_dquote_escape 0x75 _ (by decide) (hexDigits_plain 4 0xFFFD)
  rw [if_neg c9]
  by_cases c10 : r < 0x10000
  · rw [if_pos c10, hu]
    exact count_dquote_escape 0x75 _ (by decide) (hexDigits_plain 4 r)
  · rw [if_neg c10, hU]
    exact count_dquote_escape 0x55 _ (by decide) (hexDigits_plain 8 r)

theorem byte_ne_dquote_of_ge (b : Byte) (h : 0x80 ≤ b.val) : b ≠ dquote := by
  intro hb
  rw [hb] at h
  exact absurd h (by decide)

/-- The loop of `strconv.Quote` writes exactly one quote byte for each quote
byte of its input, provided the bytes it is about to skip are non-ASCII. -/
theorem count_quoteLoop (L : Lib) (s : GoString) :
    ∀ skip : Nat, (∀ b ∈ s.take skip, 0x80 ≤ b.val) →
      (quoteLoop L skip s).count dquote = s.count dquote := by
  induction s with
  | nil => intro skip _; cases skip <;> rfl
  | cons s0 rest ih =>
    intro skip hskip
    cases skip with
    | succ k =>
      have h0 : 0x80 ≤ s0.val := hskip s0 (by simp)
      have hne : s0 ≠ dquote := byte_ne_dquote_of_ge s0 h0
      rw [List.count_cons_of_ne (fun h => hne h.symm)]
      exact ih k (fun b hb => hskip b (by simp [hb]))
    | zero =>
      rw [quoteLoop_zero_cons]
      have hhex : (backslash :: 0x78 :: lowerhex (s0.val >>> 4) :: lowerhex (s0.val &&& 0xF)
          :: quoteLoop L 0 rest).count dquote = rest.count dquote := by
        have h1 := (lowerhex_plain (s0.val >>> 4)).1
        have h2 := (lowerhex_plain (s0.val &&& 0xF)).1
        rw [List.count_cons_of_ne (by decide), List.count_cons_of_ne (by decide),
          List.count_cons_of_ne (fun h => h1 h.symm), List.count_cons_of_ne (fun h => h2 h.symm)]
        exact ih 0 (by simp)
      by_cases h0 : s0.val ≥ 0x80
      · have hne : s0 ≠ dquote := byte_ne_dquote_of_ge s0 h0
        obtain ⟨hr, hcont⟩ := decodeRune_multibyte s0 rest h0
        simp only [if_pos h0]
        rw [List.count_cons_of_ne (fun h => hne h.symm)]
        split
        · exact hhex
        · rw [List.count_append, appendEscapedRune_count, if_neg (by omega), Nat.zero_add]
          exact ih _ hcont
      · simp only [if_neg h0]
        have hlt := s0.isLt
        have hRE : ¬ (True ∧ s0.val = RuneError) := by
          intro h
          have := h.2
          simp only [RuneError] at this
          omega
        rw [if_neg hRE, List.count_append, appendEscapedRune_count]
        have hrest := ih 0 (by simp)
        simp only [Nat.sub_self] at hrest ⊢
        rw [hrest]
        by_cases hq : s0 = dquote
        · subst hq
          have hv : dquote.val = 0x22 := rfl
          rw [if_pos hv, List.count_cons_self]
          omega
        · have : s0.val ≠ 0x22 := by
            intro h
            apply hq
            exact Fin.ext h
          rw [if_neg this, List.count_cons_of_ne (fun h => hq h.symm)]
          omega

theorem isMark_false_of_ge (b : Byte) (h : 0x80 ≤ b.val) : isMark b = false := by
  have h1 : b ≠ dquote := byte_ne_dquote_of_ge b h
  have h2 : b ≠ backslash := by
    intro hb
    rw [hb] at h
    exact absurd h (by decide)
  simp [isMark, h1, h2]

theorem marks_plain (p : GoString) (hp : ∀ b ∈ p, b ≠ dquote ∧ b ≠ backslash)
    (tail : GoString) :
    escapedMarks false (p ++ tail) = escapedMarks false tail := by
  induction p with
  | nil => rfl
  | cons c t ih =>
    have hc := hp c (List.mem_cons_self _ _)
    have ht := ih (fun b hb => hp b (List.mem_cons_of_mem _ hb))
    simp [escapedMarks, hc.1, hc.2, ht]

theorem marks_escape (c : Byte) (tail : GoString) :
    escapedMarks false (backslash :: c :: tail)
      = (if isMark c then [c] else []) ++ escapedMarks false tail := by
  have h : backslash ≠ dquote := by decide
  by_cases hc : isMark c = true
  · simp [escapedMarks, h, hc]
  · simp [escapedMarks, h, hc]

theorem marks_escape_plain (c : Byte) (p : GoString) (hc : isMark c = false)
    (hp : ∀ b ∈ p, b ≠ dquote ∧ b ≠ backslash) (tail : GoString) :
    escapedMarks false ((backslash :: c :: p) ++ tail) = escapedMarks false tail := by
  rw [List.cons_append, List.cons_append, marks_escape, hc, marks_plain p hp]
  rfl

theorem marks_letter (t : String) (ht : (lit t).length = 1)
    (hq : dquote ∉ lit t) (hb : backslash ∉ lit t) (tail : GoString) :
    escapedMarks false ((backslash :: lit t) ++ tail) = escapedMarks false tail := by
  match hl : lit t, ht with
  | [c], _ =>
    rw [hl] at hq hb
    have h1 : c ≠ dquote := fun h => hq (by simp [h])
    have h2 : c ≠ backslash := fun h => hb (by simp [h])
    exact marks_escape_plain c [] (by simp [isMark, h1, h2]) (by simp) tail

/-- Read back, the chunk written for a rune denotes one escaped quote when the
rune is the quote, one escaped backslash when it is the backslash, and neither
otherwise. -/
theorem appendEscapedRune_marks (L : Lib) (r : Nat) (tail : GoString) :
    escapedMarks false (appendEscapedRune L r ++ tail)
      = (if r = 0x22 then [dquote] else if r = 0x5C then [backslash] else [])
          ++ escapedMarks false tail := by
  have hx : lit "x" = [0x78] := by decide
  have hu : lit "u" = [0x75] := by decide
  have hU : lit "U" = [0x55] := by decide
  unfold appendEscapedRune
  by_cases hq : r = 0x22
  · subst hq
    rw [if_pos (Or.inl rfl), if_pos rfl]
    exact marks_escape _ _
  rw [if_neg hq]
  by_cases hb : r = 0x5C
  · subst hb
    rw [if_pos (Or.inr rfl), if_pos rfl]
    exact marks_escape _ _
  rw [if_neg hb]
  have h0 : ¬ (r = 0x22 ∨ r = 0x5C) := by
    intro h
    rcases h with h | h
    · exact hq h
    · exact hb h
  rw [if_neg h0, List.nil_append]
  by_cases hp : isPrint L r = true
  · rw [if_pos hp]; exact marks_plain _ (appendRune_plain r hq hb) tail
  rw [if_neg hp]
  by_cases c1 : r = 0x07
  · rw [if_pos c1]; exact marks_letter _ (by decide) (by decide) (by decide) tail
  rw [if_neg c1]
  by_cases c2 : r = 0x08
  · rw [if_pos c2]; exact marks_letter _ (by decide) (by decide) (by decide) tail
  rw [if_neg c2]
  by_cases c3 : r = 0x0C
  · rw [if_pos c3]; exact marks_letter _ (by decide) (by decide) (by decide) tail
  rw [if_neg c3]
  by_cases c4 : r = 0x0A
  · rw [if_pos c4]; exact marks_letter _ (by decide) (by decide) (by decide) tail
  rw [if_neg c4]
  by_cases c5 : r = 0x0D
  · rw [if_pos c5]; exact marks_letter _ (by decide) (by decide) (by decide) tail
  rw [if_neg c5]
  by_cases c6 : r = 0x09
  · rw [if_pos c6]; exact marks_letter _ (by decide) (by decide) (by decide) tail
  rw [if_neg c6]
  by_cases c7 : r = 0x0B
  · rw [if_pos c7]; exact marks_letter _ (by decide) (by decide) (by decide) tail
  rw [if_neg c7]
  have hhex : ∀ i j : Nat, ∀ b ∈ [lowerhex i, lowerhex j], b ≠ dquote ∧ b ≠ backslash := by
    intro i j b hb
    simp only [List.mem_cons, List.mem_singleton, List.not_mem_nil, or_false] at hb
    rcases hb with h | h <;> rw [h] <;> exact lowerhex_plain _
  by_cases c8 : r < 0x20 ∨ r = 0x7F
  · rw [if_pos c8, hx]
    exact marks_escape_plain 0x78 _ (by decide) (hhex _ _) tail
  rw [if_neg c8]
  by_cases c9 : (!validRune r) = true
  · rw [if_pos c9, hu]
    exact marks_escape_plain 0x75 _ (by decide) (hexDigits_plain 4 0xFFFD) tail
  rw [if_neg c9]
  by_cases c10 : r < 0x10000
  · rw [if_pos c10, hu]
    exact marks_escape_plain 0x75 _ (by decide) (hexDigits_plain 4 r) tail
  · rw [if_neg c10, hU]
    exact marks_escape_plain 0x55 _ (by decide) (hexDigits_plain 8 r) tail

/-- Read back, the output of the loop of `strconv.Quote` denotes exactly the
quotes and backslashes of its input, in order, each of them escaped. -/
theorem quoteLoop_marks (L : Lib) (s : GoString) :
    ∀ (skip : Nat) (tail : GoString), (∀ b ∈ s.take skip, 0x80 ≤ b.val) →
      escapedMarks false (quoteLoop L skip s ++ tail)
        = s.filter isMark ++ escapedMarks false tail := by
  induction s with
  | nil => intro skip tail _; cases skip <;> rfl
  | cons s0 rest ih =>
    intro skip tail hskip
    cases skip with
    | succ k =>
      have h0 : 0x80 ≤ s0.val := hskip s0 (by simp)
      rw [List.filter_cons_of_neg (by simp [isMark_false_of_ge s0 h0])]
      exact ih k tail (fun b hb => hskip b (by simp [hb]))
    | zero =>
      rw [quoteLoop_zero_cons]
      have hhex : escapedMarks false
          ((backslash :: 0x78 :: lowerhex (s0.val >>> 4) :: lowerhex (s0.val &&& 0xF)
            :: quoteLoop L 0 rest) ++ tail)
          = rest.filter isMark ++ escapedMarks false tail := by
        have := marks_escape_plain 0x78 [lowerhex (s0.val >>> 4), lowerhex (s0.val &&& 0xF)]
          (by decide)
          (by
            intro b hb
            simp only [List.mem_cons, List.mem_singleton, List.not_mem_nil, or_false] at hb
            rcases hb with h | h <;> rw [h] <;> exact lowerhex_plain _)
          (quoteLoop L 0 rest ++ tail)
        rw [← ih 0 tail (by simp), ← this]
        simp
      by_cases h0 : s0.val ≥ 0x80
      · obtain ⟨hr, hcont⟩ := decodeRune_multibyte s0 rest h0
        simp only [if_pos h0]
        rw [List.filter_cons_of_neg (by simp [isMark_false_of_ge s0 h0])]
        split
        · exact hhex
        · rw [List.append_assoc, appendEscapedRune_marks, if_neg (by omega), if_neg (by omega),
            List.nil_append]
          exact ih _ tail hcont
      · simp only [if_neg h0]
        have hlt := s0.isLt
        have hRE : ¬ (True ∧ s0.val = RuneError) := by
          intro h
          have := h.2
          simp only [RuneError] at this
          omega
        rw [if_neg hRE, List.append_assoc, appendEscapedRune_marks]
        have hrest := ih 0 tail (by simp)
        simp only [Nat.sub_self] at hrest ⊢
        rw [hrest]
        by_cases hq : s0 = dquote
        · subst hq
          have hv : dquote.val = 0x22 := rfl
          rw [if_pos hv, List.filter_cons_of_pos (by decide)]
          rfl
        · have hq' : s0.val ≠ 0x22 := fun h => hq (Fin.ext h)
          rw [if_neg hq']
          by_cases hb : s0 = backslash
          · subst hb
            have hv : backslash.val = 0x5C := rfl
            rw [if_pos hv, List.filter_cons_of_pos (by decide)]
            rfl
          · have hb' : s0.val ≠ 0x5C := fun h => hb (Fin.ext h)
            rw [if_neg hb', List.filter_cons_of_neg (by simp [isMark, hq, hb])]
            rfl

/-- C3: the literal that `Bind` substitutes for a string argument starts with
a double quote and ends with one, and read from the left (a backslash escaping
the byte after it) its first unescaped double quote is its last byte: whatever
text follows the literal, the literal is read as one whole string and the rest
is left over. Read in the same way, the quotes and backslashes that the literal
holds in escaped position are exactly the quotes and the backslashes of the
argument, in the order of the argument: every double quote of the argument is
in the literal behind an escaping backslash, and every backslash of the
argument is itself escaped. The literal holds no other quote byte than these
and its two delimiters. -/
theorem Bind_string_literal_escaped (L : Lib) (s : GoString) :
    (bindLiteral L (Value.string s)).head? = some dquote ∧
    (bindLiteral L (Value.string s)).getLast? = some dquote ∧
    2 ≤ (bindLiteral L (Value.string s)).length ∧
    (∀ rest : GoString, scanLiteral (bindLiteral L (Value.string s) ++ rest) = some rest) ∧
    (∀ rest : GoString,
      literalMarks (bindLiteral L (Value.string s) ++ rest) = s.filter isMark) ∧
    (literalMarks (bindLiteral L (Value.string s))).count dquote = s.count dquote ∧
    (literalMarks (bindLiteral L (Value.string s))).count backslash = s.count backslash ∧
    (bindLiteral L (Value.string s)).count dquote = s.count dquote + 2 ∧
    appendEscapedRune L 0x22 = [backslash, dquote] ∧
    appendEscapedRune L 0x5C = [backslash, backslash] := by
  have hmarks : ∀ rest : GoString,
      literalMarks (bindLiteral L (Value.string s) ++ rest) = s.filter isMark := by
    intro rest
    show literalMarks (dquote :: ((quoteLoop L 0 s ++ [dquote]) ++ rest)) = _
    rw [List.append_assoc]
    show (if dquote = dquote then
      escapedMarks false (quoteLoop L 0 s ++ ([dquote] ++ rest)) else []) = _
    rw [if_pos rfl, quoteLoop_marks L s 0 _ (by simp)]
    simp [escapedMarks]
  have hmarks0 : literalMarks (bindLiteral L (Value.string s)) = s.filter isMark := by
    have := hmarks []
    rwa [List.append_nil] at this
  have hcount : ∀ c : Byte, isMark c = true → (s.filter isMark).count c = s.count c := by
    intro c hc
    rw [List.count_filter hc]
  refine ⟨rfl, ?_, ?_, ?_, hmarks, ?_, ?_, ?_, rfl, rfl⟩
  · show ([dquote] ++ quoteLoop L 0 s ++ [dquote]).getLast? = some dquote
    rw [List.getLast?_append]
    rfl
  · simp [bindLiteral, strconvQuote]
  · intro rest
    show scanLiteral (dquote :: ((quoteLoop L 0 s ++ [dquote]) ++ rest)) = some rest
    rw [List.append_assoc]
    show (if dquote = dquote then
      scanLiteralBody false (quoteLoop L 0 s ++ ([dquote] ++ rest)) else none) = some rest
    rw [if_pos rfl, quoteLoop_balanced]
    simp [scanLiteralBody]
  · rw [hmarks0]; exact hcount dquote (by decide)
  · rw [hmarks0]; exact hcount backslash (by decide)
  · show ([dquote] ++ quoteLoop L 0 s ++ [dquote]).count dquote = s.count dquote + 2
    rw [List.count_append, List.count_append, count_quoteLoop L s 0 (by simp)]
    simp
    omega

/-- Witness for C3: read back, the literal of the Windows path `C:\dir\new`
holds the two backslashes of the path, both escaped, and the literal of
`say "hi"` holds its two quotes, both escaped. -/
theorem Bind_string_literal_escaped_witness :
    literalMarks (bindLiteral plainLib (Value.string (lit "C:" ++ [backslash] ++ lit "dir"
        ++ [backslash] ++ lit "new")) ++ lit " AND b = 1") = [backslash, backslash] ∧
    literalMarks (bindLiteral plainLib (Value.string (lit "say " ++ [dquote] ++ lit "hi"
        ++ [dquote])) ++ lit " AND b = 1") = [dquote, dquote] ∧
    scanLiteral (bindLiteral plainLib (Value.string (lit "say " ++ [dquote] ++ lit "hi"
        ++ [dquote])) ++ lit " AND b = 1") = some (lit " AND b = 1") :=
  ⟨((Bind_string_literal_escaped plainLib (lit "C:" ++ [backslash] ++ lit "dir"
        ++ [backslash] ++ lit "new")).2.2.2.2.1 (lit " AND b = 1")).trans (by decide),
   ((Bind_string_literal_escaped plainLib (lit "say " ++ [dquote] ++ lit "hi"
        ++ [dquote])).2.2.2.2.1 (lit " AND b = 1")).trans (by decide),
   (Bind_string_literal_escaped plainLib (lit "say " ++ [dquote] ++ lit "hi"
        ++ [dquote])).2.2.2.1 (lit " AND b = 1")⟩

/-- The literals of the Windows path `C:\dir\new`, whose two backslashes are
both written twice, and of `say "hi"`, evaluated. -/
theorem quoted_literal_samples :
    bindLiteral plainLib (Value.string (lit "C:" ++ [backslash] ++ lit "dir" ++ [backslash]
        ++ lit "new"))
      = [dquote] ++ lit "C:" ++ [backslash, backslash] ++ lit "dir" ++ [backslash, backslash]
        ++ lit "new" ++ [dquote] ∧
    bindLiteral plainLib (Value.string (lit "say " ++ [dquote] ++ lit "hi" ++ [dquote]))
      = [dquote] ++ lit "say " ++ [backslash, dquote] ++ lit "hi" ++ [backslash, dquote]
        ++ [dquote] := by
  decide

/-! ### The cursor -/

theorem drain_eq_drop (data : List (List GoString)) :
    ∀ (fuel pos : Nat), data.length - pos ≤ fuel →
      Rows.drain fuel ⟨pos, data.length, data⟩ = data.drop pos := by
  intro fuel
  induction fuel with
  | zero =>
    intro pos h
    have : data.length ≤ pos := by omega
    simp [Rows.drain, List.drop_eq_nil_of_le this]
  | succ k ih =>
    intro pos h
    by_cases hp : data.length ≤ pos
    · simp [Rows.drain, Rows.Next, hp, List.drop_eq_nil_of_le hp]
    · have hlt : pos < data.length := by omega
      simp only [Rows.drain, Rows.Next, hp, if_false]
      rw [ih (pos + 1) (by omega)]
      rw [List.getD_eq_getElem _ _ hlt]
      exact (List.drop_eq_getElem_cons hlt).symm

theorem filePath_eq (W : World) (s : Stmt) :
    s.filePath W
      = (W.filepathJoin W.tempDir
          (stringsJoin [lit "awql", formatUint (sum64Write fnvOffset64 s.SrcQuery).1, lit ".",
            stringsToLower apiFmt] []), none) := rfl

/-- The steps of `Query` in sequence, with the path made explicit. -/
theorem Query_steps (W : World) (s : Stmt) (args : List Value) :
    s.Query W args =
      match (s.Bind W.lib args).2 with
      | some err => ⟨none, some err, (s.Bind W.lib args).1, []⟩
      | none =>
        match ((s.Bind W.lib args).1.download W ((s.Bind W.lib args).1.filePath W).1).err with
        | some err =>
          ⟨none, some err,
            ((s.Bind W.lib args).1.download W ((s.Bind W.lib args).1.filePath W).1).stmt,
            ((s.Bind W.lib args).1.download W ((s.Bind W.lib args).1.filePath W).1).trace⟩
        | none =>
          match W.osOpen ((s.Bind W.lib args).1.filePath W).1 with
          | some err =>
            ⟨none, some err,
              ((s.Bind W.lib args).1.download W ((s.Bind W.lib args).1.filePath W).1).stmt,
              ((s.Bind W.lib args).1.download W ((s.Bind W.lib args).1.filePath W).1).trace
                ++ [Event.open_ ((s.Bind W.lib args).1.filePath W).1]⟩
          | none =>
            match W.csvReadAll ((s.Bind W.lib args).1.filePath W).1 with
            | .error err =>
              ⟨none, some err,
                ((s.Bind W.lib args).1.download W ((s.Bind W.lib args).1.filePath W).1).stmt,
                ((s.Bind W.lib args).1.download W ((s.Bind W.lib args).1.filePath W).1).trace
                  ++ [Event.open_ ((s.Bind W.lib args).1.filePath W).1]⟩
            | .ok rs =>
              ⟨some (queryRows rs), none,
                ((s.Bind W.lib args).1.download W ((s.Bind W.lib args).1.filePath W).1).stmt,
                ((s.Bind W.lib args).1.download W ((s.Bind W.lib args).1.filePath W).1).trace
                  ++ [Event.open_ ((s.Bind W.lib args).1.filePath W).1]⟩ := by
  unfold Stmt.Query
  rcases hB : s.Bind W.lib args with ⟨s1, e1⟩
  cases e1 with
  | some e => rfl
  | none =>
    simp only [filePath_eq]

/-- C4: the cursor built by the last step of `Stmt.Query` from the parsed
table. With more than one row the cursor holds the table unchanged, `Size` is
the number of rows and `Position` is 1, so the rows still to be read are the
n-1 rows after the header, in order; with one row or none the cursor is the
empty one (size 0, position 0, no data) and reading it yields no row. When all
earlier steps of `Query` succeed, this cursor is the one `Query` returns. -/
theorem Query_cursor_of_table (rs : List (List GoString)) :
    (1 < rs.length →
      (queryRows rs).Data = rs ∧ (queryRows rs).Size = rs.length ∧
      (queryRows rs).Position = 1 ∧
      (queryRows rs).Size - (queryRows rs).Position = rs.length - 1 ∧
      (∀ fuel, rs.length - 1 ≤ fuel → (queryRows rs).drain fuel = rs.drop 1) ∧
      (rs.drop 1).length = rs.length - 1) ∧
    (rs.length ≤ 1 →
      queryRows rs = ⟨0, 0, []⟩ ∧ (queryRows rs).Next = none ∧
      ∀ fuel, (queryRows rs).drain fuel = []) ∧
    (∀ (W : World) (s : Stmt) (args : List Value),
      (s.Bind W.lib args).2 = none →
      ((s.Bind W.lib args).1.download W ((s.Bind W.lib args).1.filePath W).1).err = none →
      W.osOpen ((s.Bind W.lib args).1.filePath W).1 = none →
      W.csvReadAll ((s.Bind W.lib args).1.filePath W).1 = Except.ok rs →
      (s.Query W args).rows = some (queryRows rs) ∧ (s.Query W args).err = none) := by
  refine ⟨?_, ?_, ?_⟩
  · intro h
    have hq : queryRows rs = ⟨1, rs.length, rs⟩ := by
      unfold queryRows
      rw [if_pos h]
    rw [hq]
    refine ⟨rfl, rfl, rfl, rfl, ?_, by simp⟩
    intro fuel hf
    exact drain_eq_drop rs fuel 1 hf
  · intro h
    have hq : queryRows rs = ⟨0, 0, []⟩ := by
      unfold queryRows
      rw [if_neg (by omega)]
    rw [hq]
    refine ⟨rfl, rfl, ?_⟩
    intro fuel
    cases fuel <;> rfl
  · intro W s args hb hd ho hc
    rw [Query_steps, hb]
    simp only [hd, ho, hc]
    exact ⟨trivial, trivial⟩

/-- Witness for C4: the report of three rows yields its two data rows, a
report with only the header yields none. -/
theorem Query_cursor_of_table_witness :
    ((queryRows sampleTable).Size = 3 ∧ (queryRows sampleTable).Position = 1 ∧
      (queryRows sampleTable).drain 5
        = [[lit "Spring", lit "12"], [lit "Summer", lit "7"]]) ∧
    (queryRows [[lit "Campaign", lit "Clicks"]]).drain 5 = [] ∧
    (Stmt.Query (sampleWorld none (Except.ok ⟨200, []⟩)) ⟨plainConn, lit "SELECT ?"⟩
        [Value.int64 1]).rows = some (queryRows sampleTable) :=
  ⟨⟨((Query_cursor_of_table sampleTable).1 (by decide)).2.1,
     ((Query_cursor_of_table sampleTable).1 (by decide)).2.2.1,
     ((Query_cursor_of_table sampleTable).1 (by decide)).2.2.2.2.1 5 (by decide)⟩,
   ((Query_cursor_of_table [[lit "Campaign", lit "Clicks"]]).2.1 (by decide)).2.2 5,
   ((Query_cursor_of_table sampleTable).2.2 (sampleWorld none (Except.ok ⟨200, []⟩))
      ⟨plainConn, lit "SELECT ?"⟩ [Value.int64 1] (by decide) (by decide) (by decide)
      rfl).1⟩

/-! ### Download -/

theorem downloadSend_error (W : World) (s : Stmt) (name : GoString) (rq : Request)
    (t0 : List Event) (e : Error) (h : W.clientDo rq = Except.error e) :
    s.downloadSend W name rq t0 = ⟨some e, s, t0 ++ [Event.send rq]⟩ := by
  simp only [Stmt.downloadSend, h]

theorem downloadSend_ok (W : World) (s : Stmt) (name : GoString) (rq : Request)
    (t0 : List Event) (resp : Response) (h : W.clientDo rq = Except.ok resp) :
    s.downloadSend W name rq t0 =
      if resp.StatusCode ≠ 200 then
        if resp.StatusCode = 0 then
          ⟨some Error.ErrNoNetwork, s, t0 ++ [Event.send rq]⟩
        else if resp.StatusCode = 400 then
          ⟨some (Error.NewApiError resp.Body), s, t0 ++ [Event.send rq]⟩
        else
          ⟨some Error.ErrBadNetwork, s, t0 ++ [Event.send rq]⟩
      else
        match W.osCreate name with
        | some err => ⟨some err, s, t0 ++ [Event.send rq, Event.create name]⟩
        | none =>
          match W.copyBody name resp.Body with
          | some err =>
            ⟨some err, s, t0 ++ [Event.send rq, Event.create name, Event.copy name resp.Body]⟩
          | none =>
            ⟨none, s, t0 ++ [Event.send rq, Event.create name, Event.copy name resp.Body]⟩ := by
  simp only [Stmt.downloadSend, h]

theorem downloadSend_sent (W : World) (s : Stmt) (name : GoString) (rq0 rq : Request)
    (t0 : List Event) (h0 : t0 = [] ∨ t0 = [Event.authenticate])
    (h : Event.send rq ∈ (s.downloadSend W name rq0 t0).trace) : rq = rq0 := by
  unfold Stmt.downloadSend at h
  rcases h0 with h0 | h0 <;> subst h0 <;>
    (split at h
     · simpa using h
     · split at h
       · split at h
         · simpa using h
         · split at h <;> simpa using h
       · split at h
         · simpa using h
         · split at h <;> simpa using h)

/-- A request that appears in the trace of `download` is the one request given
to the HTTP client, after at most the authentication. -/
theorem download_sent (W : World) (s : Stmt) (name : GoString) (rq : Request)
    (h : Event.send rq ∈ (s.download W name).trace) :
    ∃ (s1 : Stmt) (t0 : List Event), (t0 = [] ∨ t0 = [Event.authenticate]) ∧
      s.download W name = s1.downloadSend W name rq t0 := by
  unfold Stmt.download at h ⊢
  cases hreq : W.newRequest (lit "POST") (apiUrl ++ s.Db.opts.Version) with
  | some e => simp [hreq] at h
  | none =>
    simp only [hreq] at h ⊢
    cases hA : s.Db.oAuth with
    | none =>
      simp only [hA] at h ⊢
      have := downloadSend_sent W _ name _ rq [] (Or.inl rfl) h
      subst this
      exact ⟨_, [], Or.inl rfl, rfl⟩
    | some a =>
      simp only [hA] at h ⊢
      cases hr : (W.authenticate a).1 with
      | some e => simp [hr] at h
      | none =>
        simp only [hr] at h ⊢
        have := downloadSend_sent W _ name _ rq [Event.authenticate] (Or.inr rfl) h
        subst this
        exact ⟨_, [Event.authenticate], Or.inr rfl, rfl⟩

/-- C5: once `download` has received a response, the status code alone picks
the branch. Status 200 is the only one for which the output file is created
and the body copied into it (the result is then the error of `os.Create` or
`io.Copy`, nil when both succeed); status 400 yields `NewApiError` of the body,
status 0 yields `ErrNoNetwork`, every other status yields `ErrBadNetwork`, and
none of these three touches the file. -/
theorem download_outcome_by_status (W : World) (s : Stmt) (name : GoString)
    (rq : Request) (resp : Response)
    (hsend : Event.send rq ∈ (s.download W name).trace)
    (hresp : W.clientDo rq = Except.ok resp) :
    (resp.StatusCode = 200 →
      Event.create name ∈ (s.download W name).trace ∧
      (s.download W name).err
        = (match W.osCreate name with
          | some e => some e
          | none => W.copyBody name resp.Body) ∧
      (W.osCreate name = none → Event.copy name resp.Body ∈ (s.download W name).trace)) ∧
    (resp.StatusCode ≠ 200 →
      (∀ n, Event.create n ∉ (s.download W name).trace) ∧
      (∀ n b, Event.copy n b ∉ (s.download W name).trace)) ∧
    (resp.StatusCode = 400 →
      (s.download W name).err = some (Error.NewApiError resp.Body)) ∧
    (resp.StatusCode = 0 → (s.download W name).err = some Error.ErrNoNetwork) ∧
    (resp.StatusCode ≠ 200 → resp.StatusCode ≠ 400 → resp.StatusCode ≠ 0 →
      (s.download W name).err = some Error.ErrBadNetwork) := by
  obtain ⟨s1, t0, ht0, hd⟩ := download_sent W s name rq hsend
  rw [hd, downloadSend_ok W s1 name rq t0 resp hresp]
  refine ⟨?_, ?_, ?_, ?_, ?_⟩
  · intro h200
    rw [if_neg (by simp [h200])]
    cases hc : W.osCreate name with
    | some e => simp
    | none =>
      cases hb : W.copyBody name resp.Body with
      | some e => simp
      | none => simp
  · intro hne
    rw [if_pos hne]
    rcases ht0 with h | h <;> subst h <;>
      (refine ⟨?_, ?_⟩ <;> intros <;> split <;> try split) <;> simp
  · intro h400
    have h1 : resp.StatusCode ≠ 200 := by omega
    have h2 : ¬ resp.StatusCode = 0 := by omega
    rw [if_pos h1, if_neg h2, if_pos h400]
  · intro h0
    have h1 : resp.StatusCode ≠ 200 := by omega
    rw [if_pos h1, if_pos h0]
  · intro h1 h2 h3
    rw [if_pos h1, if_neg h3, if_neg h2]

/-- The request `download` sends for a connection without auth material. -/
theorem download_plain_request (W : World) (s : Stmt) (name : GoString)
    (hreq : W.newRequest (lit "POST") (apiUrl ++ s.Db.opts.Version) = none)
    (hA : s.Db.oAuth = none) :
    s.download W name
      = Stmt.downloadSend W { s with Db := { s.Db with clientTimeout := apiTimeout } } name
          ⟨lit "POST", apiUrl ++ s.Db.opts.Version, formBody s.SrcQuery,
            baseHeader { s.Db with clientTimeout := apiTimeout }⟩ [] := by
  unfold Stmt.download
  simp only [hreq, hA]

/-- Witness for C5: a response with status 400 and a response with status 503
on a connection without auth material. -/
theorem download_outcome_by_status_witness :
    (Stmt.download (sampleWorld none (Except.ok ⟨400, lit "<reportDownloadError/>"⟩))
        ⟨plainConn, lit "SELECT 1"⟩ (lit "/tmp/awql1.csv")).err
      = some (Error.NewApiError (lit "<reportDownloadError/>")) ∧
    (Stmt.download (sampleWorld none (Except.ok ⟨503, []⟩))
        ⟨plainConn, lit "SELECT 1"⟩ (lit "/tmp/awql1.csv")).err
      = some Error.ErrBadNetwork :=
  ⟨(download_outcome_by_status
      (sampleWorld none (Except.ok ⟨400, lit "<reportDownloadError/>"⟩))
      ⟨plainConn, lit "SELECT 1"⟩ (lit "/tmp/awql1.csv")
      ⟨lit "POST", apiUrl ++ plainConn.opts.Version, formBody (lit "SELECT 1"),
        baseHeader { plainConn with clientTimeout := apiTimeout }⟩
      ⟨400, lit "<reportDownloadError/>"⟩ (by decide) rfl).2.2.1 (by decide),
   (download_outcome_by_status (sampleWorld none (Except.ok ⟨503, []⟩))
      ⟨plainConn, lit "SELECT 1"⟩ (lit "/tmp/awql1.csv")
      ⟨lit "POST", apiUrl ++ plainConn.opts.Version, formBody (lit "SELECT 1"),
        baseHeader { plainConn with clientTimeout := apiTimeout }⟩
      ⟨503, []⟩ (by decide) rfl).2.2.2.2 (by decide) (by decide) (by decide)⟩

/-- C6, as stated, fails: the HTTP client returns a transport error and no
response, and `download` returns that error, which is not `ErrNoNetwork`. -/
theorem download_transport_error_counterexample :
    (sampleWorld none (Except.error (Error.library (lit "dial tcp: connection refused")))).clientDo
        ⟨lit "POST", apiUrl ++ plainConn.opts.Version, formBody (lit "SELECT 1"),
          baseHeader { plainConn with clientTimeout := apiTimeout }⟩
      = Except.error (Error.library (lit "dial tcp: connection refused")) ∧
    (Stmt.download
        (sampleWorld none (Except.error (Error.library (lit "dial tcp: connection refused"))))
        ⟨plainConn, lit "SELECT 1"⟩ (lit "/tmp/awql1.csv")).err
      = some (Error.library (lit "dial tcp: connection refused")) ∧
    (Stmt.download
        (sampleWorld none (Except.error (Error.library (lit "dial tcp: connection refused"))))
        ⟨plainConn, lit "SELECT 1"⟩ (lit "/tmp/awql1.csv")).err
      ≠ some Error.ErrNoNetwork := by
  refine ⟨rfl, ?_, ?_⟩ <;> decide

/-- C6, amended: when the HTTP client returns a transport error and no
response for the request of `download`, `download` returns that transport
error unchanged, and no output file is created. -/
theorem download_transport_error (W : World) (s : Stmt) (name : GoString)
    (rq : Request) (e : Error)
    (hsend : Event.send rq ∈ (s.download W name).trace)
    (hdo : W.clientDo rq = Except.error e) :
    (s.download W name).err = some e ∧
    (∀ n, Event.create n ∉ (s.download W name).trace) := by
  obtain ⟨s1, t0, ht0, hd⟩ := download_sent W s name rq hsend
  rw [hd, downloadSend_error W s1 name rq t0 e hdo]
  refine ⟨rfl, ?_⟩
  intro n
  rcases ht0 with h | h <;> subst h <;> simp

/-- Witness for C6 amended: a refused connection. -/
theorem download_transport_error_witness :
    (Stmt.download
        (sampleWorld none (Except.error (Error.library (lit "dial tcp: connection refused"))))
        ⟨plainConn, lit "SELECT 1"⟩ (lit "/tmp/awql1.csv")).err
      = some (Error.library (lit "dial tcp: connection refused")) :=
  (download_transport_error
    (sampleWorld none (Except.error (Error.library (lit "dial tcp: connection refused"))))
    ⟨plainConn, lit "SELECT 1"⟩ (lit "/tmp/awql1.csv")
    ⟨lit "POST", apiUrl ++ plainConn.opts.Version, formBody (lit "SELECT 1"),
      baseHeader { plainConn with clientTimeout := apiTimeout }⟩
    (Error.library (lit "dial tcp: connection refused")) (by decide) rfl).1

theorem baseHeader_no_authorization (db : Conn) :
    ∀ h ∈ baseHeader db, h.1 ≠ lit "Authorization" := by
  intro h hh
  simp only [baseHeader, List.mem_cons, List.mem_singleton, List.not_mem_nil, or_false] at hh
  rcases hh with h | h | h | h | h | h | h | h | h <;> rw [h] <;> dsimp only <;> decide

theorem download_request_error (W : World) (s : Stmt) (name : GoString) (e : Error)
    (hreq : W.newRequest (lit "POST") (apiUrl ++ s.Db.opts.Version) = some e) :
    s.download W name = ⟨some e, s, []⟩ := by
  unfold Stmt.download
  simp only [hreq]

theorem download_auth_failed (W : World) (s : Stmt) (name : GoString) (a : Auth) (e : Error)
    (hreq : W.newRequest (lit "POST") (apiUrl ++ s.Db.opts.Version) = none)
    (hA : s.Db.oAuth = some a) (he : (W.authenticate a).1 = some e) :
    s.download W name
      = ⟨some Error.ErrBadToken,
          { s with Db := { s.Db with clientTimeout := apiTimeout,
                                     oAuth := some (W.authenticate a).2 } },
          [Event.authenticate]⟩ := by
  unfold Stmt.download
  simp only [hreq, hA, he]

theorem download_auth_ok (W : World) (s : Stmt) (name : GoString) (a : Auth)
    (hreq : W.newRequest (lit "POST") (apiUrl ++ s.Db.opts.Version) = none)
    (hA : s.Db.oAuth = some a) (he : (W.authenticate a).1 = none) :
    s.download W name
      = Stmt.downloadSend W
          { s with Db := { s.Db with clientTimeout := apiTimeout,
                                     oAuth := some (W.authenticate a).2 } } name
          ⟨lit "POST", apiUrl ++ s.Db.opts.Version, formBody s.SrcQuery,
            baseHeader { s.Db with clientTimeout := apiTimeout }
              ++ [(lit "Authorization", (W.authenticate a).2.String)]⟩
          [Event.authenticate] := by
  unfold Stmt.download
  simp only [hreq, hA, he]

theorem downloadSend_trace (W : World) (s : Stmt) (name : GoString) (rq : Request)
    (t0 : List Event) :
    ∃ tail, (s.downloadSend W name rq t0).trace = t0 ++ Event.send rq :: tail ∧
      Event.authenticate ∉ tail := by
  unfold Stmt.downloadSend
  split
  · exact ⟨[], rfl, by simp⟩
  · split
    · split
      · exact ⟨[], rfl, by simp⟩
      · split
        · exact ⟨[], rfl, by simp⟩
        · exact ⟨[], rfl, by simp⟩
    · split
      · exact ⟨[Event.create name], rfl, by simp⟩
      · split
        · exact ⟨[Event.create name, Event.copy name _], rfl, by simp⟩
        · exact ⟨[Event.create name, Event.copy name _], rfl, by simp⟩

/-- C7: on a connection with auth material, when `authenticate()` is called
and fails, `download` returns `ErrBadToken` whatever the error was, and its
only effect is the authentication: no request is sent and no file is created
(and `authenticate()` is called as soon as the request could be built). On a
connection without auth material `download` never calls `authenticate()` and
the request it sends has no Authorization header. -/
theorem download_bad_token (W : World) (s : Stmt) (name : GoString) :
    (∀ a e, s.Db.oAuth = some a → (W.authenticate a).1 = some e →
      Event.authenticate ∈ (s.download W name).trace →
      (s.download W name).err = some Error.ErrBadToken ∧
      (s.download W name).trace = [Event.authenticate] ∧
      (∀ rq, Event.send rq ∉ (s.download W name).trace) ∧
      (∀ n, Event.create n ∉ (s.download W name).trace)) ∧
    (∀ a, s.Db.oAuth = some a →
      W.newRequest (lit "POST") (apiUrl ++ s.Db.opts.Version) = none →
      Event.authenticate ∈ (s.download W name).trace) ∧
    (s.Db.oAuth = none →
      Event.authenticate ∉ (s.download W name).trace ∧
      ∀ rq, Event.send rq ∈ (s.download W name).trace →
        ∀ h ∈ rq.header, h.1 ≠ lit "Authorization") := by
  refine ⟨?_, ?_, ?_⟩
  · intro a e hA he hcall
    cases hreq : W.newRequest (lit "POST") (apiUrl ++ s.Db.opts.Version) with
    | some e1 =>
      rw [download_request_error W s name e1 hreq] at hcall
      simp at hcall
    | none =>
      rw [download_auth_failed W s name a e hreq hA he]
      simp
  · intro a hA hreq
    cases hr : (W.authenticate a).1 with
    | some e =>
      rw [download_auth_failed W s name a e hreq hA hr]
      simp
    | none =>
      rw [download_auth_ok W s name a hreq hA hr]
      obtain ⟨tail, ht, _⟩ := downloadSend_trace W
        { s with Db := { s.Db with clientTimeout := apiTimeout,
                                   oAuth := some (W.authenticate a).2 } } name
        ⟨lit "POST", apiUrl ++ s.Db.opts.Version, formBody s.SrcQuery,
          baseHeader { s.Db with clientTimeout := apiTimeout }
            ++ [(lit "Authorization", (W.authenticate a).2.String)]⟩
        [Event.authenticate]
      rw [ht]
      simp
  · intro hA
    cases hreq : W.newRequest (lit "POST") (apiUrl ++ s.Db.opts.Version) with
    | some e1 =>
      rw [download_request_error W s name e1 hreq]
      simp
    | none =>
      rw [download_plain_request W s name hreq hA]
      refine ⟨?_, ?_⟩
      · obtain ⟨tail, ht, hno⟩ := downloadSend_trace W
          { s with Db := { s.Db with clientTimeout := apiTimeout } } name
          ⟨lit "POST", apiUrl ++ s.Db.opts.Version, formBody s.SrcQuery,
            baseHeader { s.Db with clientTimeout := apiTimeout }⟩ []
        rw [ht]
        simpa using hno
      · intro rq hrq
        have := downloadSend_sent W _ name _ rq [] (Or.inl rfl) hrq
        subst this
        exact baseHeader_no_authorization _

/-- Witness for C7: a connection with a bare access token whose
authentication fails, and a connection without auth material. -/
theorem download_bad_token_witness :
    (Stmt.download (sampleWorld (some (Error.library (lit "invalid_grant")))
        (Except.ok ⟨200, []⟩)) ⟨tokenConn, lit "SELECT 1"⟩ (lit "/tmp/awql1.csv")).err
      = some Error.ErrBadToken ∧
    Event.authenticate ∉
      (Stmt.download (sampleWorld none (Except.ok ⟨200, []⟩)) ⟨plainConn, lit "SELECT 1"⟩
        (lit "/tmp/awql1.csv")).trace :=
  ⟨((download_bad_token (sampleWorld (some (Error.library (lit "invalid_grant")))
        (Except.ok ⟨200, []⟩)) ⟨tokenConn, lit "SELECT 1"⟩ (lit "/tmp/awql1.csv")).1
      ⟨[], [], [], lit "ya29.AcC3s57okeN", lit "Bearer", 0⟩ (Error.library (lit "invalid_grant"))
      rfl rfl (by decide)).1,
   ((download_bad_token (sampleWorld none (Except.ok ⟨200, []⟩)) ⟨plainConn, lit "SELECT 1"⟩
      (lit "/tmp/awql1.csv")).2.2 rfl).1⟩

/-! ### Query -/

/-- C8: `Stmt.Query` returns either a cursor and no error, or no cursor and an
error, never both and never neither. Whichever step fails (binding, file path,
download, opening the file, parsing the CSV), the call returns no cursor and
the error of that step; when every step succeeds it returns the cursor of the
parsed table and no error. (The file-path step checks the error of the hash,
which is always nil.) -/
theorem Query_cursor_xor_error (W : World) (s : Stmt) (args : List Value) :
    (((s.Query W args).rows.isSome = true ∧ (s.Query W args).err = none) ∨
      ((s.Query W args).rows = none ∧ (s.Query W args).err.isSome = true)) ∧
    (∀ e, (s.Bind W.lib args).2 = some e →
      (s.Query W args).rows = none ∧ (s.Query W args).err = some e) ∧
    ((s.Bind W.lib args).2 = none →
      (∀ e, ((s.Bind W.lib args).1.filePath W).2 = some e →
        (s.Query W args).rows = none ∧ (s.Query W args).err = some e) ∧
      (∀ e, ((s.Bind W.lib args).1.download W ((s.Bind W.lib args).1.filePath W).1).err
            = some e →
        (s.Query W args).rows = none ∧ (s.Query W args).err = some e) ∧
      (((s.Bind W.lib args).1.download W ((s.Bind W.lib args).1.filePath W).1).err = none →
        (∀ e, W.osOpen ((s.Bind W.lib args).1.filePath W).1 = some e →
          (s.Query W args).rows = none ∧ (s.Query W args).err = some e) ∧
        (W.osOpen ((s.Bind W.lib args).1.filePath W).1 = none →
          (∀ e, W.csvReadAll ((s.Bind W.lib args).1.filePath W).1 = Except.error e →
            (s.Query W args).rows = none ∧ (s.Query W args).err = some e) ∧
          (∀ rs, W.csvReadAll ((s.Bind W.lib args).1.filePath W).1 = Except.ok rs →
            (s.Query W args).rows = some (queryRows rs) ∧ (s.Query W args).err = none)))) := by
  rw [Query_steps]
  cases hb : (s.Bind W.lib args).2 with
  | some e0 => simp
  | none =>
    have hf : ((s.Bind W.lib args).1.filePath W).2 = none := rfl
    cases hd : ((s.Bind W.lib args).1.download W ((s.Bind W.lib args).1.filePath W).1).err with
    | some e1 => simp [hf]
    | none =>
      cases ho : W.osOpen ((s.Bind W.lib args).1.filePath W).1 with
      | some e2 => simp [hf]
      | none =>
        cases hc : W.csvReadAll ((s.Bind W.lib args).1.filePath W).1 with
        | error e3 => simp [hf]
        | ok rs => simp [hf]

/-- Witness for C8: a binding failure, a download failure (status 500) and a
successful call. -/
theorem Query_cursor_xor_error_witness :
    ((Stmt.Query (sampleWorld none (Except.ok ⟨200, []⟩)) ⟨plainConn, lit "SELECT ?"⟩ []).rows
        = none ∧
      (Stmt.Query (sampleWorld none (Except.ok ⟨200, []⟩)) ⟨plainConn, lit "SELECT ?"⟩ []).err
        = some Error.ErrQueryBinding) ∧
    ((Stmt.Query (sampleWorld none (Except.ok ⟨500, []⟩)) ⟨plainConn, lit "SELECT 1"⟩ []).rows
        = none ∧
      (Stmt.Query (sampleWorld none (Except.ok ⟨500, []⟩)) ⟨plainConn, lit "SELECT 1"⟩ []).err
        = some Error.ErrBadNetwork) ∧
    ((Stmt.Query (sampleWorld none (Except.ok ⟨200, []⟩)) ⟨plainConn, lit "SELECT 1"⟩ []).rows
        = some (queryRows sampleTable) ∧
      (Stmt.Query (sampleWorld none (Except.ok ⟨200, []⟩)) ⟨plainConn, lit "SELECT 1"⟩ []).err
        = none) :=
  ⟨(Query_cursor_xor_error (sampleWorld none (Except.ok ⟨200, []⟩))
      ⟨plainConn, lit "SELECT ?"⟩ []).2.1 Error.ErrQueryBinding (by decide),
   ((Query_cursor_xor_error (sampleWorld none (Except.ok ⟨500, []⟩))
      ⟨plainConn, lit "SELECT 1"⟩ []).2.2 (by decide)).2.1 Error.ErrBadNetwork (by decide),
   ((((Query_cursor_xor_error (sampleWorld none (Except.ok ⟨200, []⟩))
      ⟨plainConn, lit "SELECT 1"⟩ []).2.2 (by decide)).2.2 (by decide)).2 (by decide)).2
      sampleTable rfl⟩

/-! ### File path -/

theorem sum64Write_eq_specFnv1 (q : GoString) :
    (sum64Write fnvOffset64 q).1 = specFnv1 q := by
  unfold sum64Write specFnv1
  simp only
  rw [← List.foldr_reverse]
  generalize q.reverse = r
  induction r with
  | nil => rfl
  | cons b t ih =>
    simp only [List.foldr_cons, specFnv1Rev, ih]
    rfl

theorem specFnv1_lt (q : GoString) : specFnv1 q < 2 ^ 64 := by
  unfold specFnv1
  generalize q.reverse = r
  cases r with
  | nil => decide
  | cons b t =>
    simp only [specFnv1Rev]
    apply Nat.xor_lt_two_pow
    · exact Nat.mod_lt _ (by decide)
    · have := b.isLt
      omega

/-- C9: `Stmt.filePath` never fails; the path is the temp directory joined
with the file name made of "awql", the base-10 digits of the 64-bit FNV-1 hash
of the bytes of the query (a value below 2^64) and ".csv". The path depends on
the query text and the platform only: two statements with the same query text
get the same path, whatever their connections. -/
theorem filePath_is_hash_name (W : World) (s : Stmt) :
    (s.filePath W).2 = none ∧
    (s.filePath W).1
      = W.filepathJoin W.tempDir
          (lit "awql" ++ lit (toString (specFnv1 s.SrcQuery)) ++ lit ".csv") ∧
    specFnv1 s.SrcQuery < 2 ^ 64 ∧
    (∀ s2 : Stmt, s2.SrcQuery = s.SrcQuery → s2.filePath W = s.filePath W) := by
  refine ⟨rfl, ?_, specFnv1_lt _, ?_⟩
  · rw [filePath_eq, sum64Write_eq_specFnv1, formatUint_eq_repr]
    have hcsv : stringsToLower apiFmt = lit "csv" := by decide
    have hdot : lit "." ++ lit "csv" = lit ".csv" := by decide
    simp only [stringsJoin, hcsv, List.intercalate, List.intersperse, List.flatten,
      List.append_nil, List.nil_append]
    rw [← hdot]
    simp
  · intro s2 h
    rw [filePath_eq, filePath_eq, h]

/-- Witness for C9: two statements on different connections with the same
query text, and the path of the query "a" (its FNV-1 hash is
0xaf63bd4c8601b7be). -/
theorem filePath_is_hash_name_witness :
    Stmt.filePath (sampleWorld none (Except.ok ⟨200, []⟩)) ⟨tokenConn, lit "a"⟩
      = Stmt.filePath (sampleWorld none (Except.ok ⟨200, []⟩)) ⟨plainConn, lit "a"⟩ ∧
    (Stmt.filePath (sampleWorld none (Except.ok ⟨200, []⟩)) ⟨plainConn, lit "a"⟩).1
      = lit "/tmp/awql12638153115695167422.csv" :=
  ⟨(filePath_is_hash_name (sampleWorld none (Except.ok ⟨200, []⟩)) ⟨plainConn, lit "a"⟩).2.2.2
      ⟨tokenConn, lit "a"⟩ rfl,
   (filePath_is_hash_name (sampleWorld none (Except.ok ⟨200, []⟩)) ⟨plainConn, lit "a"⟩).2.1.trans
      (by decide)⟩

end Awql
